import Mathlib

/-!
Verification development for the VectorPlotter SVG → G-code pipeline
(repository `cdn_modules`: two near-duplicate plotter implementations plus a
pick-and-place jog sequencer).

The JavaScript source is shallowly embedded as follows: JS numbers are
modelled by the real numbers (floating point idealised as exact real
arithmetic, `Math.sqrt` as `Real.sqrt`, `Math.hypot(a,b)` as
`Real.sqrt (a^2 + b^2)`, `Math.atan2` via `Complex.arg`); arrays built by
`push` become Lean lists; the browser DOM services used for curve sampling
(`getTotalLength` / `getPointAtLength` on a hidden SVG) are external
collaborators and are passed in as explicit function parameters.  Numeric
output formatting (`toFixed(3)`, i.e. `roundGcode`) is abstracted away:
emitted commands carry exact coordinates.
-/

noncomputable section

/-- A 2D point `{x, y}`. -/
structure Pt where
  x : ℝ
  y : ℝ

/-- Squared Euclidean distance between two points. -/
def distSqPt (p q : Pt) : ℝ := (p.x - q.x) ^ 2 + (p.y - q.y) ^ 2

/-- `distPt` from the source (`Math.hypot(p1.x - p2.x, p1.y - p2.y)`). -/
def distPt (p q : Pt) : ℝ := Real.sqrt (distSqPt p q)

/-- JS `Math.round`: round half away from zero towards +∞ (JS rounds `.5` up). -/
def jsRound (x : ℝ) : ℤ := ⌊x + 1 / 2⌋

/-! ## Path tokenizer (`tokenizePathD`, identical in both implementations)

The regex `([MLHVCSQTAZ])|(-?[\d.]+(?:e[-+]?\d+)?)/gi` lexes the `d` string
into a stream of command letters and numbers; that lexical stage is the input
here (`List Tok`).  The command-grouping loop that follows the regex is
embedded faithfully below. -/

/-- A lexical token of an SVG path `d` string: a command letter or a number. -/
inductive Tok
  | cmd (c : Char)
  | num (v : ℝ)

/-- `typeof tokens[i] === 'number'`. -/
def Tok.isNum : Tok → Bool
  | .cmd _ => false
  | .num _ => true

/-- Required argument count per path command (the `argCount` table in
`tokenizePathD`); letters outside the table give 0 (the JS `?? 0`). -/
def argCount (c : Char) : ℕ :=
  if c = 'M' ∨ c = 'm' ∨ c = 'L' ∨ c = 'l' ∨ c = 'T' ∨ c = 't' then 2
  else if c = 'H' ∨ c = 'h' ∨ c = 'V' ∨ c = 'v' then 1
  else if c = 'S' ∨ c = 's' ∨ c = 'Q' ∨ c = 'q' then 4
  else if c = 'C' ∨ c = 'c' then 6
  else if c = 'A' ∨ c = 'a' then 7
  else 0

/-- `implicitNext`: `M`/`m` implicitly repeat as `L`/`l`, others as themselves. -/
def implicitNext (c : Char) : Char :=
  if c = 'M' then 'L' else if c = 'm' then 'l' else c

/-- One tokenized record `{cmd, args}`. -/
structure PathRec where
  cmd : Char
  args : List ℝ

/-- The inner argument-gathering loop of `tokenizePathD`: take exactly `n`
leading numeric tokens; `none` when fewer than `n` are available before the
next command letter or the end of the input (the `args.length < n` break). -/
def splitNums : ℕ → List Tok → Option (List ℝ × List Tok)
  | 0, ts => some ([], ts)
  | _ + 1, [] => none
  | _ + 1, Tok.cmd _ :: _ => none
  | n + 1, Tok.num v :: ts =>
      match splitNums n ts with
      | some (args, rest) => some (v :: args, rest)
      | none => none

theorem splitNums_some_length {n : ℕ} {ts : List Tok} {args rest}
    (h : splitNums n ts = some (args, rest)) :
    args.length = n ∧ rest.length + n = ts.length := by
  induction n generalizing ts args rest with
  | zero =>
      simp only [splitNums, Option.some.injEq, Prod.mk.injEq] at h
      obtain ⟨h1, h2⟩ := h
      subst h1; subst h2; simp
  | succ n ih =>
      match ts with
      | [] => simp [splitNums] at h
      | Tok.cmd c :: ts => simp [splitNums] at h
      | Tok.num v :: ts =>
          rw [splitNums] at h
          cases hsp : splitNums n ts with
          | none => rw [hsp] at h; simp at h
          | some pr =>
              obtain ⟨as, r⟩ := pr
              rw [hsp] at h
              simp only [Option.some.injEq, Prod.mk.injEq] at h
              obtain ⟨h1, h2⟩ := h
              subst h1; subst h2
              obtain ⟨hl, hr⟩ := ih hsp
              constructor
              · simpa using hl
              · simp only [List.length_cons]
                omega

/-- The command-grouping loop of `tokenizePathD`: walk the token stream with
the pending implicit command (`lastCmd`), emitting `{cmd, args}` records.
A command followed by too few arguments, or a number with no pending
command, stops processing (the JS `break`); a zero-argument command is
pushed with empty `args` and clears `lastCmd`. -/
def groupTokens : Option Char → List Tok → List PathRec
  | _, [] => []
  | _, Tok.cmd c :: ts =>
      if h0 : argCount c = 0 then ⟨c, []⟩ :: groupTokens none ts
      else
        match h : splitNums (argCount c) ts with
        | some (args, rest) => ⟨c, args⟩ :: groupTokens (some (implicitNext c)) rest
        | none => []
  | none, Tok.num _ :: _ => []
  | some c, Tok.num v :: ts =>
      if argCount c = 0 then [⟨c, []⟩]
      else
        match h : splitNums (argCount c) (Tok.num v :: ts) with
        | some (args, rest) => ⟨c, args⟩ :: groupTokens (some (implicitNext c)) rest
        | none => []
termination_by _ ts => ts.length
decreasing_by
  · simp
  · have := splitNums_some_length h
    simp only [List.length_cons]
    omega
  · have := splitNums_some_length h
    simp only [List.length_cons] at this ⊢
    omega

/-- `tokenizePathD` (grouping stage): tokenize a path token stream into
`{cmd, args}` records, starting with no pending command. -/
def tokenizePathD (ts : List Tok) : List PathRec := groupTokens none ts

@[simp] theorem groupTokens_nil (last : Option Char) : groupTokens last [] = [] := by
  rw [groupTokens]

theorem groupTokens_cons_cmd_zero (last : Option Char) {c : Char} (ts : List Tok)
    (h0 : argCount c = 0) :
    groupTokens last (Tok.cmd c :: ts) = ⟨c, []⟩ :: groupTokens none ts := by
  rw [groupTokens, dif_pos h0]

theorem groupTokens_cons_cmd_fit (last : Option Char) {c : Char} {ts : List Tok}
    {args : List ℝ} {rest : List Tok} (h0 : ¬argCount c = 0)
    (hsp : splitNums (argCount c) ts = some (args, rest)) :
    groupTokens last (Tok.cmd c :: ts) =
      ⟨c, args⟩ :: groupTokens (some (implicitNext c)) rest := by
  rw [groupTokens, dif_neg h0]
  split
  · rename_i args' rest' heq
    rw [hsp] at heq
    injection heq with heq
    injection heq with h1 h2
    subst h1; subst h2
    rfl
  · rename_i heq
    rw [hsp] at heq
    exact absurd heq (by simp)

theorem groupTokens_cons_cmd_stop (last : Option Char) {c : Char} {ts : List Tok}
    (h0 : ¬argCount c = 0) (hsp : splitNums (argCount c) ts = none) :
    groupTokens last (Tok.cmd c :: ts) = [] := by
  rw [groupTokens, dif_neg h0]
  split
  · rename_i args' rest' heq
    rw [hsp] at heq
    exact absurd heq (by simp)
  · rfl

theorem groupTokens_cons_num_none (v : ℝ) (ts : List Tok) :
    groupTokens none (Tok.num v :: ts) = [] := by
  rw [groupTokens]

theorem groupTokens_cons_num_zero {c : Char} (v : ℝ) (ts : List Tok)
    (h0 : argCount c = 0) :
    groupTokens (some c) (Tok.num v :: ts) = [⟨c, []⟩] := by
  rw [groupTokens, if_pos h0]

theorem groupTokens_cons_num_fit {c : Char} {v : ℝ} {ts : List Tok}
    {args : List ℝ} {rest : List Tok} (h0 : ¬argCount c = 0)
    (hsp : splitNums (argCount c) (Tok.num v :: ts) = some (args, rest)) :
    groupTokens (some c) (Tok.num v :: ts) =
      ⟨c, args⟩ :: groupTokens (some (implicitNext c)) rest := by
  rw [groupTokens, if_neg h0]
  split
  · rename_i args' rest' heq
    rw [hsp] at heq
    injection heq with heq
    injection heq with h1 h2
    subst h1; subst h2
    rfl
  · rename_i heq
    rw [hsp] at heq
    exact absurd heq (by simp)

theorem groupTokens_cons_num_stop {c : Char} {v : ℝ} {ts : List Tok}
    (h0 : ¬argCount c = 0) (hsp : splitNums (argCount c) (Tok.num v :: ts) = none) :
    groupTokens (some c) (Tok.num v :: ts) = [] := by
  rw [groupTokens, if_neg h0]
  split
  · rename_i args' rest' heq
    rw [hsp] at heq
    exact absurd heq (by simp)
  · rfl

theorem splitNums_append_some {n : ℕ} {xs : List Tok} {args rest}
    (h : splitNums n xs = some (args, rest)) (suffix : List Tok) :
    splitNums n (xs ++ suffix) = some (args, rest ++ suffix) := by
  induction n generalizing xs args rest with
  | zero =>
      simp only [splitNums, Option.some.injEq, Prod.mk.injEq] at h ⊢
      exact ⟨h.1, by rw [← h.2]⟩
  | succ n ih =>
      match xs with
      | [] => simp [splitNums] at h
      | Tok.cmd c :: xs => simp [splitNums] at h
      | Tok.num v :: xs =>
          rw [splitNums] at h
          cases hsp : splitNums n xs with
          | none => rw [hsp] at h; simp at h
          | some pr =>
              obtain ⟨as, r⟩ := pr
              rw [hsp] at h
              simp only [Option.some.injEq, Prod.mk.injEq] at h
              obtain ⟨h1, h2⟩ := h
              subst h1; subst h2
              show splitNums (n + 1) (Tok.num v :: (xs ++ suffix)) = _
              rw [splitNums, ih hsp]

theorem splitNums_append_cmd_none {n : ℕ} {xs : List Tok}
    (h : splitNums n xs = none) (c : Char) (tail : List Tok) :
    splitNums n (xs ++ Tok.cmd c :: tail) = none := by
  induction xs generalizing n with
  | nil =>
      match n with
      | 0 => simp [splitNums] at h
      | n + 1 => simp [splitNums]
  | cons t xs ih =>
      match n with
      | 0 => simp [splitNums] at h
      | n + 1 =>
          match t with
          | Tok.cmd c' => simp [splitNums]
          | Tok.num v =>
              rw [splitNums] at h
              show splitNums (n + 1) (Tok.num v :: (xs ++ Tok.cmd c :: tail)) = none
              rw [splitNums]
              cases hsp : splitNums n xs with
              | none => rw [ih hsp]
              | some pr =>
                  obtain ⟨a, r⟩ := pr
                  rw [hsp] at h
                  simp at h

theorem splitNums_none_of_takeWhile_short {n : ℕ} {ts : List Tok}
    (h : (ts.takeWhile Tok.isNum).length < n) : splitNums n ts = none := by
  induction ts generalizing n with
  | nil =>
      match n with
      | 0 => simp at h
      | n + 1 => simp [splitNums]
  | cons t ts ih =>
      match t with
      | Tok.cmd c =>
          match n with
          | 0 => simp at h
          | n + 1 => simp [splitNums]
      | Tok.num v =>
          match n with
          | 0 => simp at h
          | n + 1 =>
              rw [splitNums]
              have hlt : (ts.takeWhile Tok.isNum).length < n := by
                simp only [List.takeWhile_cons, Tok.isNum, if_true, List.length_cons] at h
                omega
              rw [ih hlt]

theorem groupTokens_append_dangling {c : Char} {tail : List Tok}
    (hc : 0 < argCount c)
    (hshort : (tail.takeWhile Tok.isNum).length < argCount c) :
    ∀ (n : ℕ) (pre : List Tok) (last : Option Char), pre.length ≤ n →
      groupTokens last (pre ++ Tok.cmd c :: tail) = groupTokens last pre := by
  intro n
  induction n with
  | zero =>
      intro pre last hlen
      have hpre : pre = [] := List.length_eq_zero.mp (Nat.le_zero.mp hlen)
      subst hpre
      simp only [List.nil_append, groupTokens_nil]
      exact groupTokens_cons_cmd_stop last (by omega)
        (splitNums_none_of_takeWhile_short hshort)
  | succ n ih =>
      intro pre last hlen
      match pre with
      | [] =>
          simp only [List.nil_append, groupTokens_nil]
          exact groupTokens_cons_cmd_stop last (by omega)
            (splitNums_none_of_takeWhile_short hshort)
      | Tok.cmd c' :: pre =>
          rw [List.cons_append]
          have hlen' : pre.length ≤ n := by
            simp only [List.length_cons] at hlen; omega
          by_cases h0 : argCount c' = 0
          · rw [groupTokens_cons_cmd_zero last _ h0, groupTokens_cons_cmd_zero last _ h0,
              ih pre none hlen']
          · cases hsp : splitNums (argCount c') pre with
            | none =>
                rw [groupTokens_cons_cmd_stop last h0 (splitNums_append_cmd_none hsp c tail),
                  groupTokens_cons_cmd_stop last h0 hsp]
            | some pr =>
                obtain ⟨args, rest⟩ := pr
                have hrest : rest.length ≤ n := by
                  have := (splitNums_some_length hsp).2
                  omega
                rw [groupTokens_cons_cmd_fit last h0 (splitNums_append_some hsp _),
                  groupTokens_cons_cmd_fit last h0 hsp, ih rest _ hrest]
      | Tok.num v :: pre =>
          match last with
          | none =>
              rw [List.cons_append, groupTokens_cons_num_none, groupTokens_cons_num_none]
          | some c' =>
              rw [List.cons_append]
              by_cases h0 : argCount c' = 0
              · rw [groupTokens_cons_num_zero _ _ h0, groupTokens_cons_num_zero _ _ h0]
              · cases hsp : splitNums (argCount c') (Tok.num v :: pre) with
                | none =>
                    have hsp' : splitNums (argCount c') ((Tok.num v :: pre) ++ Tok.cmd c :: tail)
                        = none := splitNums_append_cmd_none hsp c tail
                    rw [List.cons_append] at hsp'
                    rw [groupTokens_cons_num_stop h0 hsp', groupTokens_cons_num_stop h0 hsp]
                | some pr =>
                    obtain ⟨args, rest⟩ := pr
                    have hrest : rest.length ≤ n := by
                      have := (splitNums_some_length hsp).2
                      simp only [List.length_cons] at hlen this
                      omega
                    have hsp' : splitNums (argCount c') ((Tok.num v :: pre) ++ Tok.cmd c :: tail)
                        = some (args, rest ++ Tok.cmd c :: tail) :=
                      splitNums_append_some hsp _
                    rw [List.cons_append] at hsp'
                    rw [groupTokens_cons_num_fit h0 hsp', groupTokens_cons_num_fit h0 hsp,
                      ih rest _ hrest]

/-- **C7.** A command letter followed by fewer numeric arguments than it
requires is dropped silently: the tokenizer returns exactly the records of
the complete commands preceding it, and (being a total function) never
raises, so parsing of the rest of the document continues. -/
theorem dangling_command_dropped (pre : List Tok) (c : Char) (tail : List Tok)
    (hc : 0 < argCount c)
    (hshort : (tail.takeWhile Tok.isNum).length < argCount c) :
    tokenizePathD (pre ++ Tok.cmd c :: tail) = tokenizePathD pre :=
  groupTokens_append_dangling hc hshort pre.length pre none le_rfl

/-- Witness for `dangling_command_dropped`: `M 1 2 L 3` drops the dangling
`L 3` but keeps the complete `M 1 2`. -/
theorem dangling_command_dropped_witness :
    tokenizePathD [Tok.cmd 'M', Tok.num 1, Tok.num 2, Tok.cmd 'L', Tok.num 3]
      = tokenizePathD [Tok.cmd 'M', Tok.num 1, Tok.num 2] :=
  dangling_command_dropped [Tok.cmd 'M', Tok.num 1, Tok.num 2] 'L' [Tok.num 3]
    (by decide) (by decide)

theorem groupTokens_arity :
    ∀ (n : ℕ) (last : Option Char) (ts : List Tok), ts.length ≤ n →
      ∀ r ∈ groupTokens last ts, r.args.length = argCount r.cmd := by
  intro n
  induction n with
  | zero =>
      intro last ts hlen r hr
      have : ts = [] := List.length_eq_zero.mp (Nat.le_zero.mp hlen)
      subst this
      simp at hr
  | succ n ih =>
      intro last ts hlen r hr
      match ts with
      | [] => simp at hr
      | Tok.cmd c :: ts =>
          have hlen' : ts.length ≤ n := by
            simp only [List.length_cons] at hlen; omega
          by_cases h0 : argCount c = 0
          · rw [groupTokens_cons_cmd_zero last _ h0] at hr
            rcases List.mem_cons.mp hr with h | h
            · subst h; simpa using h0.symm
            · exact ih none ts hlen' r h
          · cases hsp : splitNums (argCount c) ts with
            | none =>
                rw [groupTokens_cons_cmd_stop last h0 hsp] at hr
                simp at hr
            | some pr =>
                obtain ⟨args, rest⟩ := pr
                rw [groupTokens_cons_cmd_fit last h0 hsp] at hr
                rcases List.mem_cons.mp hr with h | h
                · subst h; exact (splitNums_some_length hsp).1
                · have hrest : rest.length ≤ n := by
                    have := (splitNums_some_length hsp).2
                    omega
                  exact ih _ rest hrest r h
      | Tok.num v :: ts =>
          match last with
          | none =>
              rw [groupTokens_cons_num_none] at hr
              simp at hr
          | some c =>
              by_cases h0 : argCount c = 0
              · rw [groupTokens_cons_num_zero _ _ h0] at hr
                rcases List.mem_cons.mp hr with h | h
                · subst h; simpa using h0.symm
                · simp at h
              · cases hsp : splitNums (argCount c) (Tok.num v :: ts) with
                | none =>
                    rw [groupTokens_cons_num_stop h0 hsp] at hr
                    simp at hr
                | some pr =>
                    obtain ⟨args, rest⟩ := pr
                    rw [groupTokens_cons_num_fit h0 hsp] at hr
                    rcases List.mem_cons.mp hr with h | h
                    · subst h; exact (splitNums_some_length hsp).1
                    · have hrest : rest.length ≤ n := by
                        have := (splitNums_some_length hsp).2
                        simp only [List.length_cons] at hlen this
                        omega
                      exact ih _ rest hrest r h

/-- **C10.** Every `{cmd, args}` record produced by the tokenizer carries
exactly the fixed number of arguments its command requires, and that fixed
count is the table M/m,L/l,T/t: 2; H/h,V/v: 1; S/s,Q/q: 4; C/c: 6; A/a: 7;
Z/z: 0.  Hence the interpreter never reads a missing argument. -/
theorem tokenizer_arity_invariant :
    (∀ (ts : List Tok), ∀ r ∈ tokenizePathD ts, r.args.length = argCount r.cmd) ∧
    argCount 'M' = 2 ∧ argCount 'm' = 2 ∧ argCount 'L' = 2 ∧ argCount 'l' = 2 ∧
    argCount 'T' = 2 ∧ argCount 't' = 2 ∧ argCount 'H' = 1 ∧ argCount 'h' = 1 ∧
    argCount 'V' = 1 ∧ argCount 'v' = 1 ∧ argCount 'S' = 4 ∧ argCount 's' = 4 ∧
    argCount 'Q' = 4 ∧ argCount 'q' = 4 ∧ argCount 'C' = 6 ∧ argCount 'c' = 6 ∧
    argCount 'A' = 7 ∧ argCount 'a' = 7 ∧ argCount 'Z' = 0 ∧ argCount 'z' = 0 :=
  ⟨fun ts r hr => groupTokens_arity ts.length none ts le_rfl r hr, by
    refine ⟨?_, ?_, ?_, ?_, ?_, ?_, ?_, ?_, ?_, ?_, ?_, ?_, ?_, ?_, ?_, ?_, ?_, ?_, ?_, ?_⟩ <;>
      decide⟩

/-- Witness for `tokenizer_arity_invariant`: the record produced for `L 1 2`
carries exactly 2 arguments. -/
theorem tokenizer_arity_invariant_witness :
    (⟨'L', [1, 2]⟩ : PathRec).args.length = argCount 'L' :=
  tokenizer_arity_invariant.1 [Tok.cmd 'L', Tok.num 1, Tok.num 2] ⟨'L', [1, 2]⟩
    (by rw [tokenizePathD,
          groupTokens_cons_cmd_fit none (by decide)
            (show splitNums (argCount 'L') [Tok.num 1, Tok.num 2] = some ([1, 2], [])
              by simp [argCount, splitNums])]
        simp)


/-! ## Jog/Simulation Sequencer (`magneticpnp.jsx`)

State of `gcodeQueueRef` / `currentGcodeIndexRef` / `waitingForOkRef` /
`isSimulatingRef`; each handler returns the new state, the line transmitted
to the device (if any), and whether the completion notification fired. -/

structure SeqState where
  queue : List String
  idx : ℕ
  waiting : Bool
  simulating : Bool

structure SeqOut where
  state : SeqState
  sent : Option String
  completed : Bool

/-- `sendNextGcodeLine`: when the index has exhausted the queue, reset all
state and notify completion; when an acknowledgment is outstanding, do
nothing; otherwise transmit the current line (JS `if (line)` skips falsy,
i.e. empty, lines) and mark the acknowledgment as outstanding. -/
def sendNextGcodeLine (s : SeqState) : SeqOut :=
  if s.queue.length ≤ s.idx then
    { state := { queue := [], idx := 0, waiting := false, simulating := false },
      sent := none, completed := true }
  else if s.waiting then { state := s, sent := none, completed := false }
  else
    match s.queue[s.idx]? with
    | some line =>
        if line = "" then { state := s, sent := none, completed := false }
        else { state := { s with waiting := true }, sent := some line, completed := false }
    | none => { state := s, sent := none, completed := false }

/-- `handleOkResponse`: ignore the acknowledgment unless a run is active and
an acknowledgment is outstanding; otherwise clear the outstanding flag,
advance the index and send the next line. -/
def handleOkResponse (s : SeqState) : SeqOut :=
  if s.simulating = false ∨ s.waiting = false then
    { state := s, sent := none, completed := false }
  else
    sendNextGcodeLine { s with waiting := false, idx := s.idx + 1 }

/-- `handleSimulate` (after generating and filtering the lines): initialise
the queue and index, mark the run active, and send the first line. -/
def startRun (lines : List String) : SeqOut :=
  sendNextGcodeLine { queue := lines, idx := 0, waiting := false, simulating := true }

/-- **C4.** Starting a run sends exactly the first line; no line is ever sent
while an acknowledgment is outstanding; an `ok` for line `i` (with a line
`i+1` remaining) transmits exactly line `i+1`; the `ok` for the final line
sends nothing, fires the completion notification and returns the sequencer
to the idle state.  The 3-line scenario behaves exactly as specified. -/
theorem jog_sequencer_single_flight :
    (∀ (l : String) (ls : List String), l ≠ "" →
       startRun (l :: ls) =
         { state := { queue := l :: ls, idx := 0, waiting := true, simulating := true },
           sent := some l, completed := false })
  ∧ (∀ s : SeqState, s.waiting = true → (sendNextGcodeLine s).sent = none)
  ∧ (∀ (lines : List String) (i : ℕ) (l : String), lines[i + 1]? = some l → l ≠ "" →
       handleOkResponse { queue := lines, idx := i, waiting := true, simulating := true } =
         { state := { queue := lines, idx := i + 1, waiting := true, simulating := true },
           sent := some l, completed := false })
  ∧ (∀ (lines : List String) (i : ℕ), lines.length = i + 1 →
       handleOkResponse { queue := lines, idx := i, waiting := true, simulating := true } =
         { state := { queue := [], idx := 0, waiting := false, simulating := false },
           sent := none, completed := true })
  ∧ ((startRun ["G1 X1", "G1 X2", "G1 X3"]).sent = some "G1 X1"
      ∧ (startRun ["G1 X1", "G1 X2", "G1 X3"]).completed = false
      ∧ (handleOkResponse (startRun ["G1 X1", "G1 X2", "G1 X3"]).state).sent = some "G1 X2"
      ∧ (handleOkResponse (handleOkResponse
          (startRun ["G1 X1", "G1 X2", "G1 X3"]).state).state).sent = some "G1 X3"
      ∧ (handleOkResponse (handleOkResponse (handleOkResponse
          (startRun ["G1 X1", "G1 X2", "G1 X3"]).state).state).state).sent = none
      ∧ (handleOkResponse (handleOkResponse (handleOkResponse
          (startRun ["G1 X1", "G1 X2", "G1 X3"]).state).state).state).completed = true
      ∧ (handleOkResponse (handleOkResponse (handleOkResponse
          (startRun ["G1 X1", "G1 X2", "G1 X3"]).state).state).state).state.simulating = false) := by
  refine ⟨?_, ?_, ?_, ?_, ?_⟩
  · intro l ls h
    simp [startRun, sendNextGcodeLine, h]
  · intro s hw
    unfold sendNextGcodeLine
    by_cases hq : s.queue.length ≤ s.idx
    · rw [if_pos hq]
    · rw [if_neg hq, if_pos hw]
  · intro lines i l hl hne
    have hlt : i + 1 < lines.length := (List.getElem?_eq_some.mp hl).1
    simp [handleOkResponse, sendNextGcodeLine, hl, hne, Nat.not_le.mpr hlt]
  · intro lines i hlen
    simp [handleOkResponse, sendNextGcodeLine, hlen]
  · refine ⟨?_, ?_, ?_, ?_, ?_, ?_, ?_⟩ <;> decide

/-- Witness for `jog_sequencer_single_flight`: starting a one-line run sends
exactly that line. -/
theorem jog_sequencer_single_flight_witness :
    startRun ["G1 X1"] =
      { state := { queue := ["G1 X1"], idx := 0, waiting := true, simulating := true },
        sent := some "G1 X1", completed := false } :=
  jog_sequencer_single_flight.1 "G1 X1" [] (by decide)

/-! ## Segment and G-code command representations -/

/-- Segment representation of part_001 (`Plotter.jsx`):
`{ type: 'line', points }` or `{ type: 'arc', start, end, center, clockwise }`
(the `end` field is called `stop` because `end` is reserved in Lean). -/
inductive Seg
  | line (points : List Pt)
  | arc (start stop center : Pt) (clockwise : Bool)

/-- One emitted G-code line, carrying exact (unrounded) numbers; the decimal
formatting (`toFixed(3)` / `roundGcode`) is abstracted away.  `arcMove g2` is
`G2` when `g2 = true` and `G3` otherwise; `f` is the feed rate; `m3`/`m5` are
the laser/vacuum actuation codes. -/
inductive GCmd
  | comment
  | g90
  | g21
  | g17
  | rapidZ (z f : ℝ)
  | rapidXY (x y f : ℝ)
  | feedZ (z f : ℝ)
  | feedXY (x y f : ℝ)
  | arcMove (g2 : Bool) (x y i j f : ℝ)
  | m2
  | m3
  | m5

def GCmd.isArcMove : GCmd → Bool
  | .arcMove _ _ _ _ _ _ => true
  | _ => false

def GCmd.isRapidXY : GCmd → Bool
  | .rapidXY _ _ _ => true
  | _ => false

def GCmd.isRapidZ : GCmd → Bool
  | .rapidZ _ _ => true
  | _ => false

def GCmd.isFeedXY : GCmd → Bool
  | .feedXY _ _ _ => true
  | _ => false

/-! ## part_001 G-code emitter (`generateGCode` in part_001) -/

/-- Per-item settings (the `DEFAULT_SETTINGS` fields used by G-code
generation). -/
structure PlotSettings where
  width : ℝ
  height : ℝ
  posX : ℝ
  posY : ℝ
  zUp : ℝ
  zDown : ℝ
  workSpeed : ℝ
  travelSpeed : ℝ

/-- `originalSize` of an imported item. -/
structure NatSize where
  w : ℝ
  h : ℝ

/-- A placed item of the part_001 implementation. -/
structure Item1 where
  paths : List Seg
  settings : PlotSettings
  originalSize : NatSize

/-- The inner cutting-move loop of part_001 `generateGCode` for a polyline:
one `G1` per remaining point, skipping a point whose scaled coordinates equal
the previously emitted ones. -/
def lineCutMoves (s : PlotSettings) (scaleX scaleY : ℝ) :
    ℝ → ℝ → List Pt → List GCmd
  | _, _, [] => []
  | lastX, lastY, p :: rest =>
      let x := p.x * scaleX + s.posX
      let y := p.y * scaleY + s.posY
      if x = lastX ∧ y = lastY then lineCutMoves s scaleX scaleY lastX lastY rest
      else GCmd.feedXY x y s.workSpeed :: lineCutMoves s scaleX scaleY x y rest

/-- Code emitted for one segment by part_001 `generateGCode`: every segment
gets its own travel / tool-down / motion / tool-up block; polylines with
fewer than 2 points are skipped. -/
def emitSeg1 (s : PlotSettings) (scaleX scaleY : ℝ) : Seg → List GCmd
  | Seg.arc a b c cw =>
      let startX := a.x * scaleX + s.posX
      let startY := a.y * scaleY + s.posY
      let endX := b.x * scaleX + s.posX
      let endY := b.y * scaleY + s.posY
      let centerX := c.x * scaleX + s.posX
      let centerY := c.y * scaleY + s.posY
      [GCmd.rapidXY startX startY s.travelSpeed,
       GCmd.feedZ s.zDown s.workSpeed,
       GCmd.arcMove cw endX endY (centerX - startX) (centerY - startY) s.workSpeed,
       GCmd.rapidZ s.zUp s.travelSpeed]
  | Seg.line [] => []
  | Seg.line [_] => []
  | Seg.line (p :: q :: rest) =>
      let startX := p.x * scaleX + s.posX
      let startY := p.y * scaleY + s.posY
      [GCmd.rapidXY startX startY s.travelSpeed, GCmd.feedZ s.zDown s.workSpeed]
      ++ lineCutMoves s scaleX scaleY startX startY (q :: rest)
      ++ [GCmd.rapidZ s.zUp s.travelSpeed]

/-- Per-item block of part_001 `generateGCode`: the `; --- name ---` comment
plus each segment's code; items with no paths are skipped. -/
def itemCode1 (it : Item1) : List GCmd :=
  if it.paths.isEmpty then []
  else
    GCmd.comment ::
      it.paths.flatMap
        (emitSeg1 it.settings (it.settings.width / it.originalSize.w)
          (it.settings.height / it.originalSize.h))

/-- part_001 `generateGCode`: preamble (comment, `G90`, `G21`, lift, travel
to origin), the per-item blocks, then return to origin and `M2`; generating
for zero items is a no-op. -/
def generateGCode1 : List Item1 → List GCmd
  | [] => []
  | first :: more =>
      [GCmd.comment, GCmd.g90, GCmd.g21,
       GCmd.rapidZ first.settings.zUp first.settings.travelSpeed,
       GCmd.rapidXY 0 0 first.settings.travelSpeed]
      ++ (first :: more).flatMap itemCode1
      ++ [GCmd.rapidXY 0 0 first.settings.travelSpeed, GCmd.m2]

/-- part_001 `sampleElement`, circle branch: a circle becomes two
semicircular arcs over the horizontal diameter with opposite clockwise
flags, the CTM applied to the three defining points; non-positive radius is
skipped. -/
def circleSample (cx cy r : ℝ) (ctm : Pt → Pt) : List Seg :=
  if r ≤ 0 then []
  else
    [Seg.arc (ctm ⟨cx + r, cy⟩) (ctm ⟨cx - r, cy⟩) (ctm ⟨cx, cy⟩) false,
     Seg.arc (ctm ⟨cx - r, cy⟩) (ctm ⟨cx + r, cy⟩) (ctm ⟨cx, cy⟩) true]

/-- `applyCtm` for a DOM matrix `{a, b, c, d, e, f}`: the affine map
`(x, y) ↦ (a·x + c·y + e, b·x + d·y + f)` used by `sampleElement`. -/
def applyMatrix (a b c d e f : ℝ) (p : Pt) : Pt :=
  ⟨p.x * a + p.y * c + e, p.x * b + p.y * d + f⟩


/-- **C6.** A positive-radius circle normalizes to exactly two semicircular
`Arc` segments sharing the (transformed) center, with start/end at the
transformed horizontal diameter endpoints and opposite clockwise flags; at
1:1 scale the emitter turns them into exactly two circular-interpolation
moves (a `G3` then a `G2`), whose I,J parameters are the center offset from
each move's start point, each spanning 180° (the two diameter endpoints are
symmetric about the center). -/
theorem circle_two_semicircle_arcs (cx cy r : ℝ) (hr : 0 < r) (ctm : Pt → Pt)
    (st : PlotSettings) (os : NatSize) (hw : st.width = os.w) (hh : st.height = os.h)
    (hw0 : os.w ≠ 0) (hh0 : os.h ≠ 0) :
    circleSample cx cy r ctm =
      [Seg.arc (ctm ⟨cx + r, cy⟩) (ctm ⟨cx - r, cy⟩) (ctm ⟨cx, cy⟩) false,
       Seg.arc (ctm ⟨cx - r, cy⟩) (ctm ⟨cx + r, cy⟩) (ctm ⟨cx, cy⟩) true]
    ∧ (generateGCode1 [⟨circleSample cx cy r (fun p => p), st, os⟩]).filter GCmd.isArcMove =
      [GCmd.arcMove false (cx - r + st.posX) (cy + st.posY) (-r) 0 st.workSpeed,
       GCmd.arcMove true (cx + r + st.posX) (cy + st.posY) r 0 st.workSpeed]
    ∧ (cx + r) + (cx - r) = 2 * cx ∧ cy + cy = 2 * cy := by
  have hnr : ¬r ≤ 0 := not_le.mpr hr
  have hsx : st.width / os.w = 1 := by rw [hw]; exact div_self hw0
  have hsy : st.height / os.h = 1 := by rw [hh]; exact div_self hh0
  refine ⟨by rw [circleSample, if_neg hnr], ?_, by ring, by ring⟩
  rw [circleSample, if_neg hnr]
  simp only [generateGCode1, itemCode1, List.isEmpty_cons, Bool.false_eq_true, if_false,
    List.flatMap_cons, List.flatMap_nil, List.append_nil, hsx, hsy, emitSeg1, mul_one,
    List.filter_append, List.filter_cons, List.filter_nil, GCmd.isArcMove]
  norm_num

/-- Witness for `circle_two_semicircle_arcs`: the circle `(cx=5, cy=5, r=5)`
at 1:1 scale (`width = originalSize.w = 10`). -/
theorem circle_two_semicircle_arcs_witness :
    circleSample 5 5 5 (fun p => p) =
      [Seg.arc ⟨5 + 5, 5⟩ ⟨5 - 5, 5⟩ ⟨5, 5⟩ false,
       Seg.arc ⟨5 - 5, 5⟩ ⟨5 + 5, 5⟩ ⟨5, 5⟩ true]
    ∧ (generateGCode1 [⟨circleSample 5 5 5 (fun p => p),
          ⟨10, 10, 0, 0, 5, 0, 1000, 6000⟩, ⟨10, 10⟩⟩]).filter GCmd.isArcMove =
      [GCmd.arcMove false (5 - 5 + 0) (5 + 0) (-5) 0 1000,
       GCmd.arcMove true (5 + 5 + 0) (5 + 0) 5 0 1000]
    ∧ (5 + 5) + (5 - 5) = 2 * (5 : ℝ) ∧ (5 : ℝ) + 5 = 2 * 5 :=
  circle_two_semicircle_arcs 5 5 5 (by norm_num) (fun p => p)
    ⟨10, 10, 0, 0, 5, 0, 1000, 6000⟩ ⟨10, 10⟩ rfl rfl (by norm_num) (by norm_num)


/-! ## part_000 «ggcode-style» arc-fitting helpers -/

/-- Result of `fitCircle3Points`. -/
structure Circ3 where
  center : Pt
  r : ℝ
  cw : Bool

/-- `fitCircle3Points`: circle through three points via perpendicular
bisectors; `none` when nearly collinear (`|det| < 1e-6`); `cw` from the sign
of the cross product. -/
def fitCircle3Points (a b c : Pt) : Option Circ3 :=
  let dyAB := b.y - a.y
  let dxAB := b.x - a.x
  let dyBC := c.y - b.y
  let dxBC := c.x - b.x
  let det := dxAB * dyBC - dyAB * dxBC
  if |det| < 1e-6 then none
  else
    let c1 := ((a.x + b.x) / 2) * dxAB + ((a.y + b.y) / 2) * dyAB
    let c2 := ((b.x + c.x) / 2) * dxBC + ((b.y + c.y) / 2) * dyBC
    let center : Pt := ⟨(c1 * dyBC - c2 * dyAB) / det, (dxAB * c2 - dxBC * c1) / det⟩
    let cross := (b.x - a.x) * (c.y - a.y) - (b.y - a.y) * (c.x - a.x)
    some ⟨center, distPt center a, decide (cross < 0)⟩

/-- `pointAtCubic` (= `cubicAt`): evaluate a cubic Bézier at parameter `t`. -/
def pointAtCubic (t : ℝ) (p0 p1 p2 p3 : Pt) : Pt :=
  ⟨(1 - t) ^ 3 * p0.x + 3 * (1 - t) ^ 2 * t * p1.x + 3 * (1 - t) * t ^ 2 * p2.x + t ^ 3 * p3.x,
   (1 - t) ^ 3 * p0.y + 3 * (1 - t) ^ 2 * t * p1.y + 3 * (1 - t) * t ^ 2 * p2.y + t ^ 3 * p3.y⟩

/-- The `lerp` helper of `splitCubic`. -/
def lerpPt (a b : Pt) (s : ℝ) : Pt := ⟨a.x + (b.x - a.x) * s, a.y + (b.y - a.y) * s⟩

/-- Result of `splitCubic`: left and right control polygons. -/
structure CubicSplit where
  l0 : Pt
  l1 : Pt
  l2 : Pt
  l3 : Pt
  r0 : Pt
  r1 : Pt
  r2 : Pt
  r3 : Pt

/-- `splitCubic`: exact de Casteljau split of a cubic at parameter `t`. -/
def splitCubic (p0 p1 p2 p3 : Pt) (t : ℝ) : CubicSplit :=
  let p01 := lerpPt p0 p1 t
  let p12 := lerpPt p1 p2 t
  let p23 := lerpPt p2 p3 t
  let p012 := lerpPt p01 p12 t
  let p123 := lerpPt p12 p23 t
  let p0123 := lerpPt p012 p123 t
  ⟨p0, p01, p012, p0123, p0123, p123, p23, p3⟩

/-- `findCenterArc`: SVG endpoint parameterization to center for a circular
arc (`rx = ry = r`, rotation unused); a degenerate chord returns the chord
midpoint. -/
def findCenterArc (x1 y1 x2 y2 r : ℝ) (large sweep : ℝ) : Pt :=
  let x1p := (x1 - x2) / 2
  let y1p := (y1 - y2) / 2
  let denom := r ^ 2 * x1p ^ 2 + r ^ 2 * y1p ^ 2
  if denom < 1e-12 then ⟨(x1 + x2) / 2, (y1 + y2) / 2⟩
  else
    let val := max 0 ((r ^ 4 - r ^ 2 * x1p ^ 2 - r ^ 2 * y1p ^ 2) / denom)
    let coef := (if large = sweep then -1 else 1) * Real.sqrt val
    ⟨coef * (r * y1p / r) + (x1 + x2) / 2, coef * (-(r * x1p) / r) + (y1 + y2) / 2⟩

/-- Result items of `fitArcsToCubic`: lines and circular arcs. -/
inductive ArcFit
  | line (start stop : Pt)
  | arc (start stop center : Pt) (cw : Bool)

/-- `fitArcsToCubic`: fit a circle through the cubic's endpoints and
midpoint; accept it when the radius is reasonable (`< 10000`) and the radial
error at `t = 1/4, 3/4` is below tolerance (otherwise `maxErr` is the JS
`Infinity`); else split at `t = 1/2` and recurse, falling back to a straight
line past depth 6. -/
def fitArcsToCubic (p0 p1 p2 p3 : Pt) (tol : ℝ) (depth : ℕ) : List ArcFit :=
  if 6 < depth then [ArcFit.line p0 p3]
  else
    match fitCircle3Points p0 (pointAtCubic (1 / 2) p0 p1 p2 p3) p3 with
    | none => [ArcFit.line p0 p3]
    | some a =>
        let maxErr :=
          max |distPt (pointAtCubic (1 / 4) p0 p1 p2 p3) a.center - a.r|
              |distPt (pointAtCubic (3 / 4) p0 p1 p2 p3) a.center - a.r|
        if a.r < 10000 ∧ maxErr < tol then [ArcFit.arc p0 p3 a.center a.cw]
        else
          let sp := splitCubic p0 p1 p2 p3 (1 / 2)
          fitArcsToCubic sp.l0 sp.l1 sp.l2 sp.l3 tol (depth + 1)
            ++ fitArcsToCubic sp.r0 sp.r1 sp.r2 sp.r3 tol (depth + 1)
termination_by 7 - depth
decreasing_by all_goals omega

/-! ## part_000 «ggcode-style» G-code emitter (`ggcodeGenerateGCode`) -/

/-- GGcode-style segment (output of `explodePathToSegments`):
`{ type, p1, p2, params }`.  The `d` string carried by the JS objects is used
only for DOM-based resampling of non-circular arcs, which is an external
browser service; the emitter's own no-DOM fallback is modelled instead, so
`d` is not carried here. -/
inductive GgSeg
  | line (p1 p2 : Pt)
  | arc (p1 p2 : Pt) (rx ry rot large sweep : ℝ)
  | cubic (p1 p2 : Pt) (x1 y1 x2 y2 : ℝ)
  | quad (p1 p2 : Pt) (x1 y1 : ℝ)

/-- `seg.p1`. -/
def GgSeg.p1 : GgSeg → Pt
  | .line p _ => p
  | .arc p _ _ _ _ _ _ => p
  | .cubic p _ _ _ _ _ => p
  | .quad p _ _ _ => p

/-- `seg.p2`. -/
def GgSeg.p2 : GgSeg → Pt
  | .line _ p => p
  | .arc _ p _ _ _ _ _ => p
  | .cubic _ p _ _ _ _ => p
  | .quad _ p _ _ => p

/-- Moves emitted for one `fitArcsToCubic` result item. -/
def arcFitMoves (scale workFeed : ℝ) : ArcFit → List GCmd
  | ArcFit.line _ b => [GCmd.feedXY (b.x * scale) (b.y * scale) workFeed]
  | ArcFit.arc a b c cw =>
      [GCmd.arcMove cw (b.x * scale) (b.y * scale)
        ((c.x - a.x) * scale) ((c.y - a.y) * scale) workFeed]

/-- Mutable state of the `segments.forEach` loop in `ggcodeGenerateGCode`:
`lastX`/`lastY` (as an optional point, `none` for the JS `null`) and
`isCutting`. -/
structure GgState where
  lastPt : Option Pt
  isCutting : Bool

/-- The discontinuity test of the `segments.forEach` loop: `true` when there
is no previous endpoint (`lastX == null`, distance `Infinity`) or the
segment's start is more than `0.05`mm from the previous endpoint. -/
def ggcodeDisc (st : GgState) (p : Pt) : Bool :=
  match st.lastPt with
  | none => true
  | some lp => decide ((0.05 : ℝ) < Real.sqrt ((p.x - lp.x) ^ 2 + (p.y - lp.y) ^ 2))

/-- The motion commands emitted for one segment (after any stroke-start
commands): a cutting move for a line; for an arc, circular interpolation via
`findCenterArc` with `G2` exactly when `sweep === 1` if circular
(`|rx - ry| ≤ 0.001`), else the sampled fallback cut to the endpoint; for
curves, the `fitArcsToCubic` results (quadratics first degree-elevated). -/
def ggcodeMoves (scale workFeed : ℝ) : GgSeg → List GCmd
  | GgSeg.line _ p2 => [GCmd.feedXY (p2.x * scale) (p2.y * scale) workFeed]
  | GgSeg.arc p1 p2 rx ry _ large sweep =>
      if 0.001 < |rx - ry| then [GCmd.feedXY (p2.x * scale) (p2.y * scale) workFeed]
      else
        let center := findCenterArc p1.x p1.y p2.x p2.y rx large sweep
        [GCmd.arcMove (decide (sweep = 1)) (p2.x * scale) (p2.y * scale)
          ((center.x - p1.x) * scale) ((center.y - p1.y) * scale) workFeed]
  | GgSeg.cubic p1 p2 x1 y1 x2 y2 =>
      (fitArcsToCubic p1 ⟨x1, y1⟩ ⟨x2, y2⟩ p2 (max 0.05 (0.1 / scale)) 0).flatMap
        (arcFitMoves scale workFeed)
  | GgSeg.quad p1 p2 x1 y1 =>
      (fitArcsToCubic p1
        ⟨p1.x + 2 / 3 * (x1 - p1.x), p1.y + 2 / 3 * (y1 - p1.y)⟩
        ⟨p2.x + 2 / 3 * (x1 - p2.x), p2.y + 2 / 3 * (y1 - p2.y)⟩
        p2 (max 0.05 (0.1 / scale)) 0).flatMap (arcFitMoves scale workFeed)

/-- One iteration of the `segments.forEach` loop of `ggcodeGenerateGCode`:
on a discontinuity lift the tool if cutting, travel to the segment's start
and lower the tool; if continuous but the tool is up, just lower it; then
emit the segment's motion.  Returns the new loop state (last endpoint =
segment end, cutting) and the emitted commands. -/
def ggcodeStep (scale workFeed travelFeed safeZ cutZ : ℝ) (isLaser : Bool)
    (st : GgState) (seg : GgSeg) : GgState × List GCmd :=
  let pre : List GCmd :=
    if ggcodeDisc st seg.p1 then
      (if st.isCutting then (if isLaser then [GCmd.m5] else [GCmd.rapidZ safeZ travelFeed])
       else [])
      ++ [GCmd.rapidXY (seg.p1.x * scale) (seg.p1.y * scale) travelFeed]
      ++ (if isLaser then [GCmd.m3] else [GCmd.feedZ cutZ workFeed])
    else if st.isCutting then []
    else if isLaser then [GCmd.m3] else [GCmd.feedZ cutZ workFeed]
  (⟨some seg.p2, true⟩, pre ++ ggcodeMoves scale workFeed seg)

/-- The `segments.forEach` loop of `ggcodeGenerateGCode`, threading state. -/
def ggcodeRun (scale workFeed travelFeed safeZ cutZ : ℝ) (isLaser : Bool) :
    GgState → List GgSeg → List GCmd
  | _, [] => []
  | st, seg :: rest =>
      (ggcodeStep scale workFeed travelFeed safeZ cutZ isLaser st seg).2
      ++ ggcodeRun scale workFeed travelFeed safeZ cutZ isLaser
          (ggcodeStep scale workFeed travelFeed safeZ cutZ isLaser st seg).1 rest

/-- `ggcodeGenerateGCode`: preamble (comment, `G90`, `G21`, `G17`, lift or
laser-off), the connectivity-aware segment loop starting with no previous
endpoint and the tool up, then lift, return to origin and `M2`. -/
def ggcodeGenerateGCode (segs : List GgSeg) (scale workFeed travelFeed safeZ cutZ : ℝ)
    (isLaser : Bool) : List GCmd :=
  [GCmd.comment, GCmd.g90, GCmd.g21, GCmd.g17]
  ++ (if isLaser then [GCmd.m5] else [GCmd.rapidZ safeZ travelFeed])
  ++ ggcodeRun scale workFeed travelFeed safeZ cutZ isLaser ⟨none, false⟩ segs
  ++ (if isLaser then [GCmd.m5] else [GCmd.rapidZ safeZ travelFeed])
  ++ [GCmd.rapidXY 0 0 travelFeed, GCmd.m2]

/-! ## part_000 item layout (`generateGCode` in part_000) -/

/-- A path entry of a part_000 item: GGcode-style (`{type, p1, p2, params}`)
or legacy (part_001-style `{points}` / `{start, end, center, clockwise}`). -/
inductive PSeg
  | gg (s : GgSeg)
  | legacy (s : Seg)

/-- A placed item of the part_000 implementation. -/
structure Item2 where
  paths : List PSeg
  settings : PlotSettings
  originalSize : NatSize

/-- The `tx` closure of part_000 `generateGCode`: scale by
`width/naturalWidth`, `height/naturalHeight` and translate by the placement
position. -/
def txPt (s : PlotSettings) (scaleX scaleY : ℝ) (p : Pt) : Pt :=
  ⟨p.x * scaleX + s.posX, p.y * scaleY + s.posY⟩

/-- Legacy polyline to GGcode line segments (consecutive point pairs). -/
def legacyLineSegs (s : PlotSettings) (scaleX scaleY : ℝ) : List Pt → List GgSeg
  | p :: q :: rest =>
      GgSeg.line (txPt s scaleX scaleY p) (txPt s scaleX scaleY q)
        :: legacyLineSegs s scaleX scaleY (q :: rest)
  | _ => []

/-- The `flatSegments` conversion of part_000 `generateGCode` for one path
entry: GGcode segments are mapped through `tx` with their params scaled;
a legacy arc becomes an endpoint-parameterized arc with radius
`R = dist(start, center)` scaled per axis, `large = 0` and
`sweep = clockwise ? 0 : 1`; a legacy polyline becomes its point-pair lines
(entries with fewer than 2 points are dropped). -/
def flatSegsOfPath (s : PlotSettings) (scaleX scaleY : ℝ) : PSeg → List GgSeg
  | PSeg.gg (GgSeg.line p1 p2) =>
      [GgSeg.line (txPt s scaleX scaleY p1) (txPt s scaleX scaleY p2)]
  | PSeg.gg (GgSeg.arc p1 p2 rx ry rot large sweep) =>
      [GgSeg.arc (txPt s scaleX scaleY p1) (txPt s scaleX scaleY p2)
        (rx * scaleX) (ry * scaleY) rot large sweep]
  | PSeg.gg (GgSeg.cubic p1 p2 x1 y1 x2 y2) =>
      [GgSeg.cubic (txPt s scaleX scaleY p1) (txPt s scaleX scaleY p2)
        (x1 * scaleX + s.posX) (y1 * scaleY + s.posY)
        (x2 * scaleX + s.posX) (y2 * scaleY + s.posY)]
  | PSeg.gg (GgSeg.quad p1 p2 x1 y1) =>
      [GgSeg.quad (txPt s scaleX scaleY p1) (txPt s scaleX scaleY p2)
        (x1 * scaleX + s.posX) (y1 * scaleY + s.posY)]
  | PSeg.legacy (Seg.arc a b c cw) =>
      [GgSeg.arc (txPt s scaleX scaleY a) (txPt s scaleX scaleY b)
        (distPt a c * scaleX) (distPt a c * scaleY) 0 0 (if cw then 0 else 1)]
  | PSeg.legacy (Seg.line pts) => legacyLineSegs s scaleX scaleY pts

/-- part_000 `generateGCode`: build the flat bed-space segment list of all
items and hand it to `ggcodeGenerateGCode` with `scale = 1`, the first
item's feeds and Z heights, and `isLaser = false`. -/
def generateGCode2 (items : List Item2) : List GCmd :=
  match items with
  | [] => []
  | first :: _ =>
      ggcodeGenerateGCode
        (items.flatMap fun it =>
          it.paths.flatMap
            (flatSegsOfPath it.settings (it.settings.width / it.originalSize.w)
              (it.settings.height / it.originalSize.h)))
        1 first.settings.workSpeed first.settings.travelSpeed
        first.settings.zUp first.settings.zDown false

/-- part_000 `sampleElement`, rect branch: four explicit edge lines (never
sampled); non-positive width or height is skipped. -/
def rectSample2 (x y w h : ℝ) (ctm : Pt → Pt) : List PSeg :=
  if w ≤ 0 ∨ h ≤ 0 then []
  else
    [PSeg.gg (GgSeg.line (ctm ⟨x, y⟩) (ctm ⟨x + w, y⟩)),
     PSeg.gg (GgSeg.line (ctm ⟨x + w, y⟩) (ctm ⟨x + w, y + h⟩)),
     PSeg.gg (GgSeg.line (ctm ⟨x + w, y + h⟩) (ctm ⟨x, y + h⟩)),
     PSeg.gg (GgSeg.line (ctm ⟨x, y + h⟩) (ctm ⟨x, y⟩))]


/-! ## part_000 path interpreter (`explodePathToSegments`)

The outer regex `([a-zA-Z])([^a-zA-Z]*)` splits the `d` string into
`(command letter, argument floats)` groups; that lexical stage is the input
here (`List (Char × List ℝ)`).  The JS inner loops read argument groups with
`args[i + k]`; on a malformed (incomplete) trailing group the JS code would
produce `NaN` coordinates — the model drops the incomplete group instead,
which is the only divergence and affects malformed input only. -/

/-- The mutable locals of `explodePathToSegments`. -/
structure EState where
  currentX : ℝ
  currentY : ℝ
  startX : ℝ
  startY : ℝ
  lastControlX : ℝ
  lastControlY : ℝ
  lastCmdWasCurve : Bool

/-- The pair loops of the `m` (trailing pairs) and `l` cases. -/
def explodeLinePairs (ctm : Pt → Pt) (isRel : Bool) :
    EState → List ℝ → List GgSeg × EState
  | st, a :: b :: rest =>
      let nx := if isRel then st.currentX + a else a
      let ny := if isRel then st.currentY + b else b
      let out := explodeLinePairs ctm isRel { st with currentX := nx, currentY := ny } rest
      (GgSeg.line (ctm ⟨st.currentX, st.currentY⟩) (ctm ⟨nx, ny⟩) :: out.1, out.2)
  | st, _ => ([], st)

/-- The `h` case loop: one horizontal line per argument. -/
def explodeH (ctm : Pt → Pt) (isRel : Bool) : EState → List ℝ → List GgSeg × EState
  | st, a :: rest =>
      let nx := if isRel then st.currentX + a else a
      let out := explodeH ctm isRel { st with currentX := nx } rest
      (GgSeg.line (ctm ⟨st.currentX, st.currentY⟩) (ctm ⟨nx, st.currentY⟩) :: out.1, out.2)
  | st, [] => ([], st)

/-- The `v` case loop: one vertical line per argument. -/
def explodeV (ctm : Pt → Pt) (isRel : Bool) : EState → List ℝ → List GgSeg × EState
  | st, a :: rest =>
      let ny := if isRel then st.currentY + a else a
      let out := explodeV ctm isRel { st with currentY := ny } rest
      (GgSeg.line (ctm ⟨st.currentX, st.currentY⟩) (ctm ⟨st.currentX, ny⟩) :: out.1, out.2)
  | st, [] => ([], st)

/-- The `c` case loop: one cubic curve segment per 6-argument group. -/
def explodeC (ctm : Pt → Pt) (isRel : Bool) : EState → List ℝ → List GgSeg × EState
  | st, a1 :: b1 :: a2 :: b2 :: a3 :: b3 :: rest =>
      let x1 := if isRel then st.currentX + a1 else a1
      let y1 := if isRel then st.currentY + b1 else b1
      let x2 := if isRel then st.currentX + a2 else a2
      let y2 := if isRel then st.currentY + b2 else b2
      let x := if isRel then st.currentX + a3 else a3
      let y := if isRel then st.currentY + b3 else b3
      let st' : EState :=
        { st with currentX := x, currentY := y, lastControlX := x2, lastControlY := y2,
                  lastCmdWasCurve := true }
      let out := explodeC ctm isRel st' rest
      (GgSeg.cubic (ctm ⟨st.currentX, st.currentY⟩) (ctm ⟨x, y⟩) x1 y1 x2 y2 :: out.1, out.2)
  | st, _ => ([], st)

/-- The `s` case loop: one cubic per 4-argument group, first control point
reflected from the previous curve command (or the current point). -/
def explodeS (ctm : Pt → Pt) (isRel : Bool) : EState → List ℝ → List GgSeg × EState
  | st, a2 :: b2 :: a3 :: b3 :: rest =>
      let x1 := if st.lastCmdWasCurve then 2 * st.currentX - st.lastControlX else st.currentX
      let y1 := if st.lastCmdWasCurve then 2 * st.currentY - st.lastControlY else st.currentY
      let x2 := if isRel then st.currentX + a2 else a2
      let y2 := if isRel then st.currentY + b2 else b2
      let x := if isRel then st.currentX + a3 else a3
      let y := if isRel then st.currentY + b3 else b3
      let st' : EState :=
        { st with currentX := x, currentY := y, lastControlX := x2, lastControlY := y2,
                  lastCmdWasCurve := true }
      let out := explodeS ctm isRel st' rest
      (GgSeg.cubic (ctm ⟨st.currentX, st.currentY⟩) (ctm ⟨x, y⟩) x1 y1 x2 y2 :: out.1, out.2)
  | st, _ => ([], st)

/-- The `q` case loop: one quadratic per 4-argument group. -/
def explodeQ (ctm : Pt → Pt) (isRel : Bool) : EState → List ℝ → List GgSeg × EState
  | st, a1 :: b1 :: a3 :: b3 :: rest =>
      let x1 := if isRel then st.currentX + a1 else a1
      let y1 := if isRel then st.currentY + b1 else b1
      let x := if isRel then st.currentX + a3 else a3
      let y := if isRel then st.currentY + b3 else b3
      let st' : EState :=
        { st with currentX := x, currentY := y, lastControlX := x1, lastControlY := y1,
                  lastCmdWasCurve := true }
      let out := explodeQ ctm isRel st' rest
      (GgSeg.quad (ctm ⟨st.currentX, st.currentY⟩) (ctm ⟨x, y⟩) x1 y1 :: out.1, out.2)
  | st, _ => ([], st)

/-- The `t` case loop: one quadratic per endpoint pair, control point
reflected from the previous curve command (or the current point). -/
def explodeT (ctm : Pt → Pt) (isRel : Bool) : EState → List ℝ → List GgSeg × EState
  | st, a3 :: b3 :: rest =>
      let x1 := if st.lastCmdWasCurve then 2 * st.currentX - st.lastControlX else st.currentX
      let y1 := if st.lastCmdWasCurve then 2 * st.currentY - st.lastControlY else st.currentY
      let x := if isRel then st.currentX + a3 else a3
      let y := if isRel then st.currentY + b3 else b3
      let st' : EState :=
        { st with currentX := x, currentY := y, lastControlX := x1, lastControlY := y1,
                  lastCmdWasCurve := true }
      let out := explodeT ctm isRel st' rest
      (GgSeg.quad (ctm ⟨st.currentX, st.currentY⟩) (ctm ⟨x, y⟩) x1 y1 :: out.1, out.2)
  | st, _ => ([], st)

/-- The `a` case loop: one endpoint-parameterized arc per 7-argument group,
keeping the raw `rx ry rot large sweep` parameters. -/
def explodeA (ctm : Pt → Pt) (isRel : Bool) : EState → List ℝ → List GgSeg × EState
  | st, rx :: ry :: rot :: large :: sweep :: a :: b :: rest =>
      let x := if isRel then st.currentX + a else a
      let y := if isRel then st.currentY + b else b
      let st' : EState := { st with currentX := x, currentY := y }
      let out := explodeA ctm isRel st' rest
      (GgSeg.arc (ctm ⟨st.currentX, st.currentY⟩) (ctm ⟨x, y⟩) rx ry rot large sweep
        :: out.1, out.2)
  | st, _ => ([], st)

/-- One iteration of the command loop of `explodePathToSegments`: dispatch on
the lower-cased command letter; after a non-curve command (or a curve command
with no argument groups) clear `lastCmdWasCurve`. -/
def explodeStep (ctm : Pt → Pt) (st : EState) (cmd : Char) (args : List ℝ) :
    List GgSeg × EState :=
  let lower := cmd.toLower
  let isRel := cmd = lower
  if lower = 'm' then
    match args with
    | a :: b :: rest =>
        let nx := if isRel then st.currentX + a else a
        let ny := if isRel then st.currentY + b else b
        let st1 : EState :=
          { st with currentX := nx, currentY := ny, startX := nx, startY := ny }
        let out := explodeLinePairs ctm isRel st1 rest
        (out.1, { out.2 with lastCmdWasCurve := false })
    | _ => ([], { st with lastCmdWasCurve := false })
  else if lower = 'l' then
    let out := explodeLinePairs ctm isRel st args
    (out.1, { out.2 with lastCmdWasCurve := false })
  else if lower = 'h' then
    let out := explodeH ctm isRel st args
    (out.1, { out.2 with lastCmdWasCurve := false })
  else if lower = 'v' then
    let out := explodeV ctm isRel st args
    (out.1, { out.2 with lastCmdWasCurve := false })
  else if lower = 'z' then
    ((if st.currentX = st.startX ∧ st.currentY = st.startY then []
      else [GgSeg.line (ctm ⟨st.currentX, st.currentY⟩) (ctm ⟨st.startX, st.startY⟩)]),
     { st with currentX := st.startX, currentY := st.startY, lastCmdWasCurve := false })
  else if lower = 'c' then
    let out := explodeC ctm isRel st args
    (out.1, if args.isEmpty then { out.2 with lastCmdWasCurve := false } else out.2)
  else if lower = 's' then
    let out := explodeS ctm isRel st args
    (out.1, if args.isEmpty then { out.2 with lastCmdWasCurve := false } else out.2)
  else if lower = 'q' then
    let out := explodeQ ctm isRel st args
    (out.1, if args.isEmpty then { out.2 with lastCmdWasCurve := false } else out.2)
  else if lower = 't' then
    let out := explodeT ctm isRel st args
    (out.1, if args.isEmpty then { out.2 with lastCmdWasCurve := false } else out.2)
  else if lower = 'a' then
    let out := explodeA ctm isRel st args
    (out.1, { out.2 with lastCmdWasCurve := false })
  else ([], { st with lastCmdWasCurve := false })

/-- The command loop of `explodePathToSegments`. -/
def explodeRun (ctm : Pt → Pt) : EState → List (Char × List ℝ) → List GgSeg
  | _, [] => []
  | st, (c, args) :: rest =>
      (explodeStep ctm st c args).1 ++ explodeRun ctm (explodeStep ctm st c args).2 rest

/-- `explodePathToSegments`: run the command loop from the all-zero initial
state. -/
def explodePathToSegments (ctm : Pt → Pt) (cmds : List (Char × List ℝ)) : List GgSeg :=
  explodeRun ctm ⟨0, 0, 0, 0, 0, 0, false⟩ cmds


/-! ## C2: stroke transitions of the G-code emitters -/

theorem arcFitMoves_no_rapid (scale w : ℝ) (a : ArcFit) :
    (arcFitMoves scale w a).any GCmd.isRapidXY = false
    ∧ (arcFitMoves scale w a).any GCmd.isRapidZ = false := by
  cases a <;> simp [arcFitMoves, GCmd.isRapidXY, GCmd.isRapidZ]

theorem flatMap_any_false {α β : Type} (l : List α) (f : α → List β) (p : β → Bool)
    (h : ∀ a ∈ l, (f a).any p = false) : (l.flatMap f).any p = false := by
  induction l with
  | nil => rfl
  | cons a l ih =>
      rw [List.flatMap_cons, List.any_append, h a (List.mem_cons_self a l),
        ih fun x hx => h x (List.mem_cons_of_mem a hx)]
      rfl

theorem ggcodeMoves_no_rapidXY (scale w : ℝ) (seg : GgSeg) :
    (ggcodeMoves scale w seg).any GCmd.isRapidXY = false := by
  cases seg with
  | line p1 p2 => simp [ggcodeMoves, GCmd.isRapidXY]
  | arc p1 p2 rx ry rot large sweep =>
      by_cases h : (0.001 : ℝ) < |rx - ry| <;> simp [ggcodeMoves, h, GCmd.isRapidXY]
  | cubic p1 p2 x1 y1 x2 y2 =>
      exact flatMap_any_false _ _ _ fun a _ => (arcFitMoves_no_rapid _ _ a).1
  | quad p1 p2 x1 y1 =>
      exact flatMap_any_false _ _ _ fun a _ => (arcFitMoves_no_rapid _ _ a).1

theorem ggcodeMoves_no_rapidZ (scale w : ℝ) (seg : GgSeg) :
    (ggcodeMoves scale w seg).any GCmd.isRapidZ = false := by
  cases seg with
  | line p1 p2 => simp [ggcodeMoves, GCmd.isRapidZ]
  | arc p1 p2 rx ry rot large sweep =>
      by_cases h : (0.001 : ℝ) < |rx - ry| <;> simp [ggcodeMoves, h, GCmd.isRapidZ]
  | cubic p1 p2 x1 y1 x2 y2 =>
      exact flatMap_any_false _ _ _ fun a _ => (arcFitMoves_no_rapid _ _ a).2
  | quad p1 p2 x1 y1 =>
      exact flatMap_any_false _ _ _ fun a _ => (arcFitMoves_no_rapid _ _ a).2

/-- The new-stroke condition described by the spec (§4.7): no previous
endpoint exists, or the segment's start lies further than the 0.05mm
discontinuity threshold from the previous endpoint. -/
def newStroke (st : GgState) (seg : GgSeg) : Prop :=
  st.lastPt = none ∨
    ∃ lp, st.lastPt = some lp ∧
      (0.05 : ℝ) < Real.sqrt ((seg.p1.x - lp.x) ^ 2 + (seg.p1.y - lp.y) ^ 2)

/-- **C2 (amended).** For the ggcode-style emitter (part_000): a segment's
emitted code contains a travel move exactly when no previous endpoint exists
or the distance from it to the segment's start exceeds the 0.05mm threshold,
and a continuous segment never gets an intervening tool lift; the 10×10 rect
placed at width = height = 100, pos = (0, 0) yields exactly one travel to
the first corner, one tool-down, four 100mm cutting moves forming a closed
square, and a tool-up (the part_001 emitter instead starts a new stroke for
every segment — see the counterexample). -/
theorem ggcode_new_stroke_exactly_on_discontinuity :
    (∀ (scale workFeed travelFeed safeZ cutZ : ℝ) (st : GgState) (seg : GgSeg),
      (((ggcodeStep scale workFeed travelFeed safeZ cutZ false st seg).2.any
          GCmd.isRapidXY) = true ↔ newStroke st seg)
      ∧ (¬newStroke st seg →
          ((ggcodeStep scale workFeed travelFeed safeZ cutZ false st seg).2.any
            GCmd.isRapidZ) = false))
    ∧ generateGCode2 [⟨rectSample2 0 0 10 10 (fun p => p),
        ⟨100, 100, 0, 0, 5, 0, 1000, 6000⟩, ⟨10, 10⟩⟩] =
      [GCmd.comment, GCmd.g90, GCmd.g21, GCmd.g17, GCmd.rapidZ 5 6000,
       GCmd.rapidXY 0 0 6000, GCmd.feedZ 0 1000,
       GCmd.feedXY 100 0 1000, GCmd.feedXY 100 100 1000,
       GCmd.feedXY 0 100 1000, GCmd.feedXY 0 0 1000,
       GCmd.rapidZ 5 6000, GCmd.rapidXY 0 0 6000, GCmd.m2] := by
  constructor
  · intro scale workFeed travelFeed safeZ cutZ st seg
    constructor
    · cases hlp : st.lastPt with
      | none =>
          have hdisc : ggcodeDisc st seg.p1 = true := by simp [ggcodeDisc, hlp]
          cases hcut : st.isCutting <;>
            simp [ggcodeStep, hdisc, hcut, List.any_append, ggcodeMoves_no_rapidXY,
              GCmd.isRapidXY, GCmd.isRapidZ, newStroke, hlp]
      | some lp =>
          by_cases hlt :
              (0.05 : ℝ) < Real.sqrt ((seg.p1.x - lp.x) ^ 2 + (seg.p1.y - lp.y) ^ 2)
          · have hdisc : ggcodeDisc st seg.p1 = true := by
              simp [ggcodeDisc, hlp, hlt]
            cases hcut : st.isCutting <;>
              simp [ggcodeStep, hdisc, hcut, List.any_append, ggcodeMoves_no_rapidXY,
                GCmd.isRapidXY, GCmd.isRapidZ, newStroke, hlp, hlt]
          · have hdisc : ggcodeDisc st seg.p1 = false := by
              simp [ggcodeDisc, hlp, hlt]
            cases hcut : st.isCutting <;>
              simp [ggcodeStep, hdisc, hcut, List.any_append, ggcodeMoves_no_rapidXY,
                GCmd.isRapidXY, GCmd.isRapidZ, newStroke, hlp, hlt]
    · intro hns
      have hdisc : ggcodeDisc st seg.p1 = false := by
        cases hlp : st.lastPt with
        | none => exact absurd (Or.inl hlp) hns
        | some lp =>
            simp only [ggcodeDisc, hlp]
            rw [decide_eq_false_iff_not]
            intro hlt
            exact hns (Or.inr ⟨lp, hlp, hlt⟩)
      cases hcut : st.isCutting <;>
        simp [ggcodeStep, hdisc, hcut, List.any_append, ggcodeMoves_no_rapidZ,
          GCmd.isRapidZ]
  · norm_num [generateGCode2, rectSample2, flatSegsOfPath, txPt, ggcodeGenerateGCode,
      ggcodeRun, ggcodeStep, ggcodeDisc, ggcodeMoves, GgSeg.p1, GgSeg.p2,
      Real.sqrt_zero, List.flatMap_cons, List.flatMap_nil]

/-- Witness for `ggcode_new_stroke_exactly_on_discontinuity`: a segment
starting exactly at the previous endpoint gets no tool lift. -/
theorem ggcode_new_stroke_witness :
    ((ggcodeStep 1 1000 6000 5 0 false ⟨some ⟨0, 0⟩, true⟩
        (GgSeg.line ⟨0, 0⟩ ⟨1, 1⟩)).2.any GCmd.isRapidZ) = false :=
  (ggcode_new_stroke_exactly_on_discontinuity.1 1 1000 6000 5 0
      ⟨some ⟨0, 0⟩, true⟩ (GgSeg.line ⟨0, 0⟩ ⟨1, 1⟩)).2
    (by rintro (h | ⟨lp, hlp, hlt⟩)
        · simp at h
        · simp only [Option.some.injEq] at hlp
          subst hlp
          norm_num [GgSeg.p1, Real.sqrt_zero] at hlt)

/-- **C2 (counterexample).** The part_001 emitter does not implement the
discontinuity rule: two consecutive segments whose shared endpoint coincides
exactly (distance 0 ≤ 0.05mm) still get an intervening tool lift
(`G0 Z5`) and travel (`G0 X1 Y0`), contradicting the claim that coincident
consecutive segments continue the same stroke, and the rect scenario under
this emitter gets four travels and four tool-downs instead of one. -/
theorem emitter_new_stroke_counterexample :
    generateGCode1 [⟨[Seg.line [⟨0, 0⟩, ⟨1, 0⟩], Seg.line [⟨1, 0⟩, ⟨1, 1⟩]],
        ⟨100, 100, 0, 0, 5, 0, 1000, 6000⟩, ⟨100, 100⟩⟩] =
      [GCmd.comment, GCmd.g90, GCmd.g21, GCmd.rapidZ 5 6000, GCmd.rapidXY 0 0 6000,
       GCmd.comment,
       GCmd.rapidXY 0 0 6000, GCmd.feedZ 0 1000, GCmd.feedXY 1 0 1000,
       GCmd.rapidZ 5 6000,
       GCmd.rapidXY 1 0 6000, GCmd.feedZ 0 1000, GCmd.feedXY 1 1 1000,
       GCmd.rapidZ 5 6000,
       GCmd.rapidXY 0 0 6000, GCmd.m2]
    ∧ distPt ⟨1, 0⟩ ⟨1, 0⟩ ≤ 0.05 := by
  constructor
  · norm_num [generateGCode1, itemCode1, emitSeg1, lineCutMoves, List.flatMap_cons,
      List.flatMap_nil, List.isEmpty_cons]
  · norm_num [distPt, distSqPt, Real.sqrt_zero]


/-! ## `svgArcToCenter` and the 4-cubic circle detection (part_001) -/

/-- Result of `svgArcToCenter`: center parameterization with the
(possibly corrected) radii; `clockwise = (fS === 0)`. -/
structure ArcC where
  cx : ℝ
  cy : ℝ
  clockwise : Bool
  rx : ℝ
  ry : ℝ

/-- `svgArcToCenter` (identical in both source files): SVG endpoint
parameterization to center parameterization with the standard radius
correction (scale both radii by `√λ` when the chord cannot be spanned);
`none` for vanishing radii or an unsolvable configuration (`sq < 0`).
JS `0/0 = NaN` (coincident endpoints) is idealised as Lean's `0/0 = 0`,
which yields the chord midpoint as center. -/
def svgArcToCenter (x1 y1 x2 y2 rx0 ry0 phiDeg : ℝ) (fA fS : ℤ) : Option ArcC :=
  let rx1 := |rx0|
  let ry1 := |ry0|
  if rx1 < 1e-9 ∨ ry1 < 1e-9 then none
  else
    let phi := phiDeg * Real.pi / 180
    let cosPhi := Real.cos phi
    let sinPhi := Real.sin phi
    let dx := (x1 - x2) / 2
    let dy := (y1 - y2) / 2
    let x1p := cosPhi * dx + sinPhi * dy
    let y1p := -sinPhi * dx + cosPhi * dy
    let lam := x1p ^ 2 / rx1 ^ 2 + y1p ^ 2 / ry1 ^ 2
    let s := if 1 < lam then Real.sqrt lam else 1
    let rx := rx1 * s
    let ry := ry1 * s
    let sq := (rx ^ 2 * ry ^ 2 - rx ^ 2 * y1p ^ 2 - ry ^ 2 * x1p ^ 2)
                / (rx ^ 2 * y1p ^ 2 + ry ^ 2 * x1p ^ 2)
    if sq < 0 then none
    else
      let coef := (if fA ≠ fS then 1 else -1) * Real.sqrt (max 0 sq)
      let cxp := coef * (rx * y1p / ry)
      let cyp := coef * (-(ry * x1p) / rx)
      some ⟨cosPhi * cxp - sinPhi * cyp + (x1 + x2) / 2,
            sinPhi * cxp + cosPhi * cyp + (y1 + y2) / 2,
            decide (fS = 0), rx, ry⟩

/-- JS `Math.atan2(y, x)` via the complex argument (both return the angle in
`(-π, π]` with `atan2 0 0 = 0`). -/
def atan2 (y x : ℝ) : ℝ := Complex.arg ⟨x, y⟩

/-- Result of `fitCircleFrom4Points`. -/
structure Fit4 where
  cx : ℝ
  cy : ℝ
  r : ℝ
  clockwise : Bool

/-- The 90°-spacing check of `fitCircleFrom4Points` on the four sorted
angles: each consecutive gap (and the wrap-around gap) within `angleTol`
of `π/2`. -/
def angleSpacingOk (angles : List ℝ) (angleTol : ℝ) : Bool :=
  match angles with
  | [a0, a1, a2, a3] =>
      decide (|a1 - a0 - Real.pi / 2| ≤ angleTol)
      && decide (|a2 - a1 - Real.pi / 2| ≤ angleTol)
      && decide (|a3 - a2 - Real.pi / 2| ≤ angleTol)
      && decide (|2 * Real.pi - (a3 - a0) - Real.pi / 2| ≤ angleTol)
  | _ => false

/-- `fitCircleFrom4Points`: fit a circle through the perpendicular bisectors
of AB and BC; accept only if B, C, D all lie within 5% of the radius and the
four points are roughly 90° apart (25° tolerance); winding from the cross
product. -/
def fitCircleFrom4Points (A B C D : Pt) : Option Fit4 :=
  let perpABx := A.y - B.y
  let perpABy := B.x - A.x
  let perpBCx := B.y - C.y
  let perpBCy := C.x - B.x
  let dmx := (B.x + C.x) / 2 - (A.x + B.x) / 2
  let dmy := (B.y + C.y) / 2 - (A.y + B.y) / 2
  let denom := perpABx * perpBCy - perpABy * perpBCx
  if |denom| < 1e-12 then none
  else
    let t := (dmx * perpBCy - dmy * perpBCx) / denom
    let cx := (A.x + B.x) / 2 + t * perpABx
    let cy := (A.y + B.y) / 2 + t * perpABy
    let r := Real.sqrt ((A.x - cx) ^ 2 + (A.y - cy) ^ 2)
    if r < 1e-9 then none
    else
      let rB := Real.sqrt ((B.x - cx) ^ 2 + (B.y - cy) ^ 2)
      let rC := Real.sqrt ((C.x - cx) ^ 2 + (C.y - cy) ^ 2)
      let rD := Real.sqrt ((D.x - cx) ^ 2 + (D.y - cy) ^ 2)
      if 0.05 < |rB - r| / r ∨ 0.05 < |rC - r| / r ∨ 0.05 < |rD - r| / r then none
      else
        let angles :=
          List.insertionSort (· ≤ ·)
            [atan2 (A.y - cy) (A.x - cx), atan2 (B.y - cy) (B.x - cx),
             atan2 (C.y - cy) (C.x - cx), atan2 (D.y - cy) (D.x - cx)]
        if angleSpacingOk angles (25 * Real.pi / 180) then
          some ⟨cx, cy, r,
            decide (0 < (B.x - A.x) * (C.y - B.y) - (B.y - A.y) * (C.x - B.x))⟩
        else none

/-! ## part_001 path interpreter (`parsePathToSegments`) -/

/-- One buffered cubic of the `cubicBuffer` (Option-B circle detection). -/
structure Cubic4 where
  P0 : Pt
  P1 : Pt
  P2 : Pt
  P3 : Pt

/-- External services used by `parsePathToSegments`, injected as parameters:
the DOM-based `sampleCurve` used for non-circular arcs (`getPointAtLength`
on a hidden path element, with the CTM already applied to the samples), and
the adaptive Bézier flatteners `adaptiveCubic` / `adaptiveQuad` at the
0.05 flatness tolerance, whose recursion is verified terminating separately
(see the C9 development below). -/
structure PathServices where
  sampleArc : Pt → Pt → ℝ → ℝ → ℝ → ℤ → ℤ → List Pt
  flattenCubic : Pt → Pt → Pt → Pt → List Pt
  flattenQuad : Pt → Pt → Pt → List Pt

/-- The interpreter state of `parsePathToSegments`: current point, subpath
start, the smooth-command reflection points, and the buffered cubics. -/
structure PState where
  x : ℝ
  y : ℝ
  subpathStartX : ℝ
  subpathStartY : ℝ
  lastCp2 : Option Pt
  lastCp : Option Pt
  buf : List Cubic4

/-- `isRel` from the source: a command letter is relative iff it equals its
own lower-casing. -/
def isRelChar (c : Char) : Bool := c = c.toLower

/-- `flushCubicBuffer`: flatten each buffered cubic adaptively and emit it
as a transformed polyline (skipped when fewer than 2 points result). -/
def flushBuf (ctm : Pt → Pt) (sv : PathServices) (buf : List Cubic4) : List Seg :=
  buf.flatMap fun cb =>
    let points := ctm cb.P0 :: (sv.flattenCubic cb.P0 cb.P1 cb.P2 cb.P3).map ctm
    if 1 < points.length then [Seg.line points] else []

/-- Argument access `args[i]` (the tokenizer guarantees the arity, see C10). -/
def ag (args : List ℝ) (i : ℕ) : ℝ := args.getD i 0


/-- One iteration of the command loop of `parsePathToSegments`, returning
the new interpreter state and the segments pushed during the iteration
(faithful to the source's branch order; unknown commands fall through with
no effect). -/
def pathStep (ctm : Pt → Pt) (sv : PathServices) (st : PState) (r : PathRec) :
    PState × List Seg :=
  let c := r.cmd
  let rel := isRelChar c
  let pt : ℝ → ℝ → Pt := fun a b => ctm ⟨a, b⟩
  if c = 'M' ∨ c = 'm' then
    let nx := if rel then st.x + ag r.args 0 else ag r.args 0
    let ny := if rel then st.y + ag r.args 1 else ag r.args 1
    ({ x := nx, y := ny, subpathStartX := nx, subpathStartY := ny,
       lastCp2 := none, lastCp := none, buf := [] },
     flushBuf ctm sv st.buf)
  else if c = 'L' ∨ c = 'l' then
    let x2 := if rel then st.x + ag r.args 0 else ag r.args 0
    let y2 := if rel then st.y + ag r.args 1 else ag r.args 1
    ({ st with x := x2, y := y2, lastCp2 := none, lastCp := none, buf := [] },
     flushBuf ctm sv st.buf ++ [Seg.line [pt st.x st.y, pt x2 y2]])
  else if c = 'H' ∨ c = 'h' then
    let x2 := if rel then st.x + ag r.args 0 else ag r.args 0
    ({ st with x := x2, lastCp2 := none, lastCp := none, buf := [] },
     flushBuf ctm sv st.buf ++ [Seg.line [pt st.x st.y, pt x2 st.y]])
  else if c = 'V' ∨ c = 'v' then
    let y2 := if rel then st.y + ag r.args 0 else ag r.args 0
    ({ st with y := y2, lastCp2 := none, lastCp := none, buf := [] },
     flushBuf ctm sv st.buf ++ [Seg.line [pt st.x st.y, pt st.x y2]])
  else if c = 'A' ∨ c = 'a' then
    let rx := ag r.args 0
    let ry := ag r.args 1
    let phiDeg := ag r.args 2
    let fA := jsRound (ag r.args 3)
    let fS := jsRound (ag r.args 4)
    let x2 := if rel then st.x + ag r.args 5 else ag r.args 5
    let y2 := if rel then st.y + ag r.args 6 else ag r.args 6
    let arcSegs : List Seg :=
      match svgArcToCenter st.x st.y x2 y2 rx ry phiDeg fA fS with
      | some a =>
          let rMax := if max a.rx a.ry = 0 then 1 else max a.rx a.ry
          if |a.rx - a.ry| / rMax < 0.01 then
            [Seg.arc (pt st.x st.y) (pt x2 y2) (pt a.cx a.cy) a.clockwise]
          else
            let points := sv.sampleArc ⟨st.x, st.y⟩ ⟨x2, y2⟩ rx ry phiDeg fA fS
            if 1 < points.length then [Seg.line points] else []
      | none => []
    ({ st with x := x2, y := y2, lastCp2 := none, lastCp := none, buf := [] },
     flushBuf ctm sv st.buf ++ arcSegs)
  else if c = 'Z' ∨ c = 'z' then
    ({ st with x := st.subpathStartX, y := st.subpathStartY,
               lastCp2 := none, lastCp := none, buf := [] },
     flushBuf ctm sv st.buf ++
       (if st.x = st.subpathStartX ∧ st.y = st.subpathStartY then []
        else [Seg.line [pt st.x st.y, pt st.subpathStartX st.subpathStartY]]))
  else if c = 'C' ∨ c = 'c' then
    let x1 := if rel then st.x + ag r.args 0 else ag r.args 0
    let y1 := if rel then st.y + ag r.args 1 else ag r.args 1
    let x2 := if rel then st.x + ag r.args 2 else ag r.args 2
    let y2 := if rel then st.y + ag r.args 3 else ag r.args 3
    let endX := if rel then st.x + ag r.args 4 else ag r.args 4
    let endY := if rel then st.y + ag r.args 5 else ag r.args 5
    let cb : Cubic4 := ⟨⟨st.x, st.y⟩, ⟨x1, y1⟩, ⟨x2, y2⟩, ⟨endX, endY⟩⟩
    let buf' := st.buf ++ [cb]
    if h4 : buf'.length = 4 then
      let q0 := buf'.getD 0 cb
      let q1 := buf'.getD 1 cb
      let q2 := buf'.getD 2 cb
      let q3 := buf'.getD 3 cb
      let A := q0.P0
      let B := q0.P3
      let Cp := q1.P3
      let D := q2.P3
      let closed := Real.sqrt ((q3.P3.x - A.x) ^ 2 + (q3.P3.y - A.y) ^ 2) < 0.001
      let fit := if closed then fitCircleFrom4Points A B Cp D else none
      match fit with
      | some f =>
          ({ st with x := q3.P3.x, y := q3.P3.y, lastCp2 := some ⟨x2, y2⟩,
                     lastCp := none, buf := [] },
           [Seg.arc (ctm A) (ctm Cp) (pt f.cx f.cy) f.clockwise,
            Seg.arc (ctm Cp) (ctm A) (pt f.cx f.cy) f.clockwise])
      | none =>
          ({ st with x := q3.P3.x, y := q3.P3.y, lastCp2 := some ⟨x2, y2⟩,
                     lastCp := none, buf := [] },
           flushBuf ctm sv buf')
    else
      ({ st with x := endX, y := endY, lastCp2 := some ⟨x2, y2⟩,
                 lastCp := none, buf := buf' }, [])
  else if c = 'S' ∨ c = 's' then
    let cp2x := if rel then st.x + ag r.args 0 else ag r.args 0
    let cp2y := if rel then st.y + ag r.args 1 else ag r.args 1
    let endX := if rel then st.x + ag r.args 2 else ag r.args 2
    let endY := if rel then st.y + ag r.args 3 else ag r.args 3
    let cp1x := match st.lastCp2 with | some p => 2 * st.x - p.x | none => st.x
    let cp1y := match st.lastCp2 with | some p => 2 * st.y - p.y | none => st.y
    let points := pt st.x st.y ::
      (sv.flattenCubic ⟨st.x, st.y⟩ ⟨cp1x, cp1y⟩ ⟨cp2x, cp2y⟩ ⟨endX, endY⟩).map ctm
    ({ st with x := endX, y := endY, lastCp2 := some ⟨cp2x, cp2y⟩,
               lastCp := none, buf := [] },
     flushBuf ctm sv st.buf ++ (if 1 < points.length then [Seg.line points] else []))
  else if c = 'Q' ∨ c = 'q' then
    let cpx := if rel then st.x + ag r.args 0 else ag r.args 0
    let cpy := if rel then st.y + ag r.args 1 else ag r.args 1
    let endX := if rel then st.x + ag r.args 2 else ag r.args 2
    let endY := if rel then st.y + ag r.args 3 else ag r.args 3
    let points := pt st.x st.y ::
      (sv.flattenQuad ⟨st.x, st.y⟩ ⟨cpx, cpy⟩ ⟨endX, endY⟩).map ctm
    ({ st with x := endX, y := endY, lastCp := some ⟨cpx, cpy⟩,
               lastCp2 := none, buf := [] },
     flushBuf ctm sv st.buf ++ (if 1 < points.length then [Seg.line points] else []))
  else if c = 'T' ∨ c = 't' then
    let endX := if rel then st.x + ag r.args 0 else ag r.args 0
    let endY := if rel then st.y + ag r.args 1 else ag r.args 1
    let cpx := match st.lastCp with | some p => 2 * st.x - p.x | none => st.x
    let cpy := match st.lastCp with | some p => 2 * st.y - p.y | none => st.y
    let points := pt st.x st.y ::
      (sv.flattenQuad ⟨st.x, st.y⟩ ⟨cpx, cpy⟩ ⟨endX, endY⟩).map ctm
    ({ st with x := endX, y := endY, lastCp := some ⟨cpx, cpy⟩,
               lastCp2 := none, buf := [] },
     flushBuf ctm sv st.buf ++ (if 1 < points.length then [Seg.line points] else []))
  else (st, [])

/-- The command loop of `parsePathToSegments`, with the final
`flushCubicBuffer()` after the loop. -/
def runPathCmds (ctm : Pt → Pt) (sv : PathServices) : PState → List PathRec → List Seg
  | st, [] => flushBuf ctm sv st.buf
  | st, r :: rest =>
      (pathStep ctm sv st r).2 ++ runPathCmds ctm sv (pathStep ctm sv st r).1 rest

/-- `parsePathToSegments`: tokenize, then interpret from the all-zero
initial state. -/
def parsePathToSegments (ctm : Pt → Pt) (sv : PathServices) (ts : List Tok) : List Seg :=
  runPathCmds ctm sv ⟨0, 0, 0, 0, none, none, []⟩ (tokenizePathD ts)


/-! ## C5: closing behaviour of `Z`/`z` -/

theorem pathStep_big_Z (ctm : Pt → Pt) (sv : PathServices) (st : PState) (args : List ℝ) :
    pathStep ctm sv st ⟨'Z', args⟩ =
      ({ st with x := st.subpathStartX, y := st.subpathStartY,
                 lastCp2 := none, lastCp := none, buf := [] },
       flushBuf ctm sv st.buf ++
         (if st.x = st.subpathStartX ∧ st.y = st.subpathStartY then []
          else [Seg.line [ctm ⟨st.x, st.y⟩, ctm ⟨st.subpathStartX, st.subpathStartY⟩]])) :=
  rfl

theorem pathStep_small_z (ctm : Pt → Pt) (sv : PathServices) (st : PState) (args : List ℝ) :
    pathStep ctm sv st ⟨'z', args⟩ =
      ({ st with x := st.subpathStartX, y := st.subpathStartY,
                 lastCp2 := none, lastCp := none, buf := [] },
       flushBuf ctm sv st.buf ++
         (if st.x = st.subpathStartX ∧ st.y = st.subpathStartY then []
          else [Seg.line [ctm ⟨st.x, st.y⟩, ctm ⟨st.subpathStartX, st.subpathStartY⟩]])) :=
  rfl

theorem explodeStep_big_Z (ctm : Pt → Pt) (st : EState) (args : List ℝ) :
    explodeStep ctm st 'Z' args =
      ((if st.currentX = st.startX ∧ st.currentY = st.startY then []
        else [GgSeg.line (ctm ⟨st.currentX, st.currentY⟩) (ctm ⟨st.startX, st.startY⟩)]),
       { st with currentX := st.startX, currentY := st.startY, lastCmdWasCurve := false }) :=
  rfl

theorem explodeStep_small_z (ctm : Pt → Pt) (st : EState) (args : List ℝ) :
    explodeStep ctm st 'z' args =
      ((if st.currentX = st.startX ∧ st.currentY = st.startY then []
        else [GgSeg.line (ctm ⟨st.currentX, st.currentY⟩) (ctm ⟨st.startX, st.startY⟩)]),
       { st with currentX := st.startX, currentY := st.startY, lastCmdWasCurve := false }) :=
  rfl

/-- **C5.** On `Z`/`z` (with an empty cubic buffer in part_001): whenever the
current point is further than any ε ≥ 0 from the subpath start — in
particular whenever the two differ at all — exactly one closing line from
the current point to the subpath start is emitted, and the current point is
reset to the subpath start; when the current point already equals the
subpath start, no redundant zero-length closing line is emitted.  Both the
part_001 interpreter (`parsePathToSegments`) and the part_000 interpreter
(`explodePathToSegments`) behave this way. -/
theorem closing_line_exactly_when_open :
    (∀ (ctm : Pt → Pt) (sv : PathServices) (st : PState) (c : Char) (args : List ℝ),
      c = 'Z' ∨ c = 'z' → st.buf = [] →
      (∀ ε : ℝ, 0 ≤ ε →
          ε < Real.sqrt ((st.x - st.subpathStartX) ^ 2 + (st.y - st.subpathStartY) ^ 2) →
          (pathStep ctm sv st ⟨c, args⟩).2 =
            [Seg.line [ctm ⟨st.x, st.y⟩, ctm ⟨st.subpathStartX, st.subpathStartY⟩]])
        ∧ (st.x = st.subpathStartX ∧ st.y = st.subpathStartY →
            (pathStep ctm sv st ⟨c, args⟩).2 = [])
        ∧ (pathStep ctm sv st ⟨c, args⟩).1.x = st.subpathStartX
        ∧ (pathStep ctm sv st ⟨c, args⟩).1.y = st.subpathStartY)
  ∧ (∀ (ctm : Pt → Pt) (st : EState) (c : Char) (args : List ℝ),
      c = 'Z' ∨ c = 'z' →
      (∀ ε : ℝ, 0 ≤ ε →
          ε < Real.sqrt ((st.currentX - st.startX) ^ 2 + (st.currentY - st.startY) ^ 2) →
          (explodeStep ctm st c args).1 =
            [GgSeg.line (ctm ⟨st.currentX, st.currentY⟩) (ctm ⟨st.startX, st.startY⟩)])
        ∧ (st.currentX = st.startX ∧ st.currentY = st.startY →
            (explodeStep ctm st c args).1 = [])
        ∧ (explodeStep ctm st c args).2.currentX = st.startX
        ∧ (explodeStep ctm st c args).2.currentY = st.startY) := by
  constructor
  · intro ctm sv st c args hc hbuf
    have hne : ∀ ε : ℝ, 0 ≤ ε →
        ε < Real.sqrt ((st.x - st.subpathStartX) ^ 2 + (st.y - st.subpathStartY) ^ 2) →
        ¬(st.x = st.subpathStartX ∧ st.y = st.subpathStartY) := by
      intro ε hε hlt heq
      rw [heq.1, heq.2] at hlt
      simp [Real.sqrt_zero] at hlt
      linarith
    rcases hc with rfl | rfl <;>
      [rw [pathStep_big_Z]; rw [pathStep_small_z]] <;>
      exact ⟨fun ε hε hlt => by rw [hbuf]; simp [flushBuf, if_neg (hne ε hε hlt)],
        fun heq => by rw [hbuf]; simp [flushBuf, if_pos heq],
        rfl, rfl⟩
  · intro ctm st c args hc
    have hne : ∀ ε : ℝ, 0 ≤ ε →
        ε < Real.sqrt ((st.currentX - st.startX) ^ 2 + (st.currentY - st.startY) ^ 2) →
        ¬(st.currentX = st.startX ∧ st.currentY = st.startY) := by
      intro ε hε hlt heq
      rw [heq.1, heq.2] at hlt
      simp [Real.sqrt_zero] at hlt
      linarith
    rcases hc with rfl | rfl <;>
      [rw [explodeStep_big_Z]; rw [explodeStep_small_z]] <;>
      exact ⟨fun ε hε hlt => by simp [if_neg (hne ε hε hlt)],
        fun heq => by simp [if_pos heq], rfl, rfl⟩

/-- Witness for `closing_line_exactly_when_open`: a path open by distance 1
(current point `(1,0)`, subpath start `(0,0)`) gets exactly one closing
line on `Z`. -/
theorem closing_line_exactly_when_open_witness :
    (pathStep (fun p => p) ⟨fun _ _ _ _ _ _ _ => [], fun _ _ _ _ => [], fun _ _ _ => []⟩
        ⟨1, 0, 0, 0, none, none, []⟩ ⟨'Z', []⟩).2 =
      [Seg.line [⟨1, 0⟩, ⟨0, 0⟩]] :=
  (closing_line_exactly_when_open.1 (fun p => p)
      ⟨fun _ _ _ _ _ _ _ => [], fun _ _ _ _ => [], fun _ _ _ => []⟩
      ⟨1, 0, 0, 0, none, none, []⟩ 'Z' [] (Or.inl rfl) rfl).1 (1 / 2)
    (by norm_num) (by norm_num [Real.sqrt_one])


/-! ## C8: sweep-flag → G2/G3 convention across the two emitters -/

/-- The G2/G3 selectors of the circular-interpolation moves of a G-code
program, in order (`true` = `G2`, `false` = `G3`). -/
def arcG2Flags (code : List GCmd) : List Bool :=
  code.filterMap fun c =>
    match c with
    | GCmd.arcMove g2 _ _ _ _ _ => some g2
    | _ => none

/-- **C8 (counterexample).** The same SVG arc command
`M 0 0  A 1 1 0 0 1 0 2` (sweep flag 1) becomes a `G3` move in the part_001
pipeline but a `G2` move in the part_000 (ggcode-style) pipeline: the
sweep-flag translation is NOT consistent across the two implementations. -/
theorem sweep_convention_counterexample :
    parsePathToSegments (fun p => p)
        ⟨fun _ _ _ _ _ _ _ => [], fun _ _ _ _ => [], fun _ _ _ => []⟩
        [Tok.cmd 'M', Tok.num 0, Tok.num 0, Tok.cmd 'A', Tok.num 1, Tok.num 1,
         Tok.num 0, Tok.num 0, Tok.num 1, Tok.num 0, Tok.num 2] =
      [Seg.arc ⟨0, 0⟩ ⟨0, 2⟩ ⟨0, 1⟩ false]
    ∧ arcG2Flags (generateGCode1 [⟨[Seg.arc ⟨0, 0⟩ ⟨0, 2⟩ ⟨0, 1⟩ false],
        ⟨100, 100, 0, 0, 5, 0, 1000, 6000⟩, ⟨100, 100⟩⟩]) = [false]
    ∧ explodePathToSegments (fun p => p) [('M', [0, 0]), ('A', [1, 1, 0, 0, 1, 0, 2])] =
      [GgSeg.arc ⟨0, 0⟩ ⟨0, 2⟩ 1 1 0 0 1]
    ∧ arcG2Flags (generateGCode2 [⟨[PSeg.gg (GgSeg.arc ⟨0, 0⟩ ⟨0, 2⟩ 1 1 0 0 1)],
        ⟨100, 100, 0, 0, 5, 0, 1000, 6000⟩, ⟨100, 100⟩⟩]) = [true]
    ∧ ([false] : List Bool) ≠ [true] := by
  have hsvg : svgArcToCenter 0 0 0 2 1 1 0 0 1 = some ⟨0, 1, false, 1, 1⟩ := by
    rw [svgArcToCenter]
    norm_num [Real.sqrt_zero, Real.cos_zero, Real.sin_zero]
  have htok : tokenizePathD
      [Tok.cmd 'M', Tok.num 0, Tok.num 0, Tok.cmd 'A', Tok.num 1, Tok.num 1,
       Tok.num 0, Tok.num 0, Tok.num 1, Tok.num 0, Tok.num 2] =
      [⟨'M', [0, 0]⟩, ⟨'A', [1, 1, 0, 0, 1, 0, 2]⟩] := by
    rw [tokenizePathD,
      groupTokens_cons_cmd_fit none (by decide)
        (show splitNums (argCount 'M')
            [Tok.num 0, Tok.num 0, Tok.cmd 'A', Tok.num 1, Tok.num 1, Tok.num 0,
             Tok.num 0, Tok.num 1, Tok.num 0, Tok.num 2] =
          some ([0, 0], [Tok.cmd 'A', Tok.num 1, Tok.num 1, Tok.num 0, Tok.num 0,
            Tok.num 1, Tok.num 0, Tok.num 2]) from rfl),
      groupTokens_cons_cmd_fit _ (by decide)
        (show splitNums (argCount 'A')
            [Tok.num 1, Tok.num 1, Tok.num 0, Tok.num 0, Tok.num 1, Tok.num 0,
             Tok.num 2] = some ([1, 1, 0, 0, 1, 0, 2], []) from rfl),
      groupTokens_nil]
  have hM : pathStep (fun p => p)
      ⟨fun _ _ _ _ _ _ _ => [], fun _ _ _ _ => [], fun _ _ _ => []⟩
      ⟨0, 0, 0, 0, none, none, []⟩ ⟨'M', [0, 0]⟩ =
      (⟨0, 0, 0, 0, none, none, []⟩, []) := rfl
  have hA : pathStep (fun p => p)
      ⟨fun _ _ _ _ _ _ _ => [], fun _ _ _ _ => [], fun _ _ _ => []⟩
      ⟨0, 0, 0, 0, none, none, []⟩ ⟨'A', [1, 1, 0, 0, 1, 0, 2]⟩ =
      (⟨0, 2, 0, 0, none, none, []⟩, [Seg.arc ⟨0, 0⟩ ⟨0, 2⟩ ⟨0, 1⟩ false]) := by
    simp only [pathStep, isRelChar, ag]
    norm_num [jsRound, flushBuf, hsvg]
    simp
  have h1 : parsePathToSegments (fun p => p)
      ⟨fun _ _ _ _ _ _ _ => [], fun _ _ _ _ => [], fun _ _ _ => []⟩
      [Tok.cmd 'M', Tok.num 0, Tok.num 0, Tok.cmd 'A', Tok.num 1, Tok.num 1,
       Tok.num 0, Tok.num 0, Tok.num 1, Tok.num 0, Tok.num 2] =
      [Seg.arc ⟨0, 0⟩ ⟨0, 2⟩ ⟨0, 1⟩ false] := by
    rw [parsePathToSegments, htok, runPathCmds, hM, runPathCmds, hA, runPathCmds]
    simp [flushBuf]
  refine ⟨h1, ?_, ?_, ?_, by decide⟩
  · simp [generateGCode1, itemCode1, emitSeg1, arcG2Flags, List.filterMap_append]
  · rfl
  · have hdec : decide ((1 : ℝ) = 1) = true := by simp
    simp [generateGCode2, flatSegsOfPath, txPt, ggcodeGenerateGCode, ggcodeRun,
      ggcodeStep, ggcodeDisc, ggcodeMoves, GgSeg.p1, GgSeg.p2, arcG2Flags,
      List.filterMap_append, hdec]
    norm_num
    rfl

/-- **C8 (amended).** The two emitters translate the sweep flag into G2/G3
in opposite ways: `svgArcToCenter` stores `clockwise = (fS = 0)` and the
part_001 emitter issues `G2` exactly for `clockwise`, i.e. for sweep 0,
while the ggcode-style emitter issues `G2` exactly for sweep 1; for both
flag values the two selections are opposite booleans. -/
theorem sweep_convention_amended (fS : ℤ) (hfS : fS = 0 ∨ fS = 1) :
    (∀ x1 y1 x2 y2 rx0 ry0 phi fA res,
      svgArcToCenter x1 y1 x2 y2 rx0 ry0 phi fA fS = some res →
      res.clockwise = decide (fS = 0))
    ∧ (∀ (sett : PlotSettings) (sX sY : ℝ) (a b c : Pt),
        arcG2Flags (emitSeg1 sett sX sY (Seg.arc a b c (decide (fS = 0)))) =
          [decide (fS = 0)])
    ∧ (∀ (scale workFeed travelFeed safeZ cutZ : ℝ) (st : GgState) (p1 p2 : Pt)
        (r rot large : ℝ),
        arcG2Flags ((ggcodeStep scale workFeed travelFeed safeZ cutZ false st
            (GgSeg.arc p1 p2 r r rot large (fS : ℝ))).2) = [decide ((fS : ℝ) = 1)])
    ∧ decide (fS = 0) = !decide ((fS : ℝ) = 1) := by
  refine ⟨?_, ?_, ?_, ?_⟩
  · intro x1 y1 x2 y2 rx0 ry0 phi fA res h
    rw [svgArcToCenter] at h
    split_ifs at h <;> simp only [] at h <;> split_ifs at h <;>
      first
        | exact Option.noConfusion h
        | (injection h with h; subst h; rfl)
  · intro sett sX sY a b c
    simp [emitSeg1, arcG2Flags]
  · intro scale workFeed travelFeed safeZ cutZ st p1 p2 r rot large
    have habs : ¬((0.001 : ℝ) < |r - r|) := by norm_num
    cases hdisc : ggcodeDisc st (GgSeg.arc p1 p2 r r rot large (fS : ℝ)).p1 <;>
      cases hcut : st.isCutting <;>
        simp [ggcodeStep, hdisc, hcut, ggcodeMoves, habs, arcG2Flags,
          List.filterMap_append, show ¬((0.001 : ℝ) < (0 : ℝ)) by norm_num]
  · rcases hfS with rfl | rfl
    · rw [decide_eq_true (show (0 : ℤ) = 0 from rfl),
        decide_eq_false (show ¬(((0 : ℤ) : ℝ) = 1) by push_cast; norm_num)]
      rfl
    · rw [decide_eq_false (show ¬((1 : ℤ) = 0) by norm_num),
        decide_eq_true (show (((1 : ℤ) : ℝ) = 1) by push_cast; ring)]
      rfl

/-- Witness for `sweep_convention_amended`: sweep flag 1 gives `G3` (flag
`false`) in the part_001 emitter. -/
theorem sweep_convention_amended_witness :
    arcG2Flags (emitSeg1 ⟨100, 100, 0, 0, 5, 0, 1000, 6000⟩ 1 1
        (Seg.arc ⟨0, 0⟩ ⟨0, 2⟩ ⟨0, 1⟩ (decide ((1 : ℤ) = 0)))) =
      [decide ((1 : ℤ) = 0)] :=
  (sweep_convention_amended 1 (Or.inr rfl)).2.1 ⟨100, 100, 0, 0, 5, 0, 1000, 6000⟩
    1 1 ⟨0, 0⟩ ⟨0, 2⟩ ⟨0, 1⟩


/-! ## C3: bed-coordinate mapping of the emitters -/

/-- **C3 (counterexample).** The claimed mapping is
`bedX = bedCenterX + posX + p.x·scaleX`, `bedY = posY + (height − p.y·scaleY)`
(bed centre 250, Y flipped).  The code emits `(posX + p.x·scaleX,
posY + p.y·scaleY)`: for the line `(0,0)→(1,2)` at 1:1 scale, pos `(0,0)`,
height 100, the only cutting move is to `(1, 2)` — not to the claimed
`(251, 98)`: no centre offset and no Y-flip is applied. -/
theorem bed_mapping_counterexample :
    (generateGCode1 [⟨[Seg.line [⟨0, 0⟩, ⟨1, 2⟩]],
        ⟨100, 100, 0, 0, 5, 0, 1000, 6000⟩, ⟨100, 100⟩⟩]).filter GCmd.isFeedXY
      = [GCmd.feedXY 1 2 1000]
    ∧ (1 : ℝ) ≠ 250 + 0 + 1 * (100 / 100)
    ∧ (2 : ℝ) ≠ 0 + (100 - 2 * (100 / 100)) := by
  refine ⟨?_, by norm_num, by norm_num⟩
  norm_num [generateGCode1, itemCode1, emitSeg1, lineCutMoves, List.flatMap_cons,
    List.flatMap_nil, List.isEmpty_cons, List.filter_append, List.filter_cons,
    List.filter_nil, GCmd.isFeedXY]

/-- **C3 (amended).** Both emitters map a segment point `p` to the bed
coordinates `(posX + p.x·scaleX, posY + p.y·scaleY)` with
`scaleX = width/naturalWidth` and `scaleY = height/naturalHeight`: the
X coordinate gets no bed-centre offset and the Y coordinate is not flipped. -/
theorem bed_mapping_amended (p q : Pt) (st : PlotSettings) (os : NatSize)
    (hq : ¬(q.x * (st.width / os.w) + st.posX = p.x * (st.width / os.w) + st.posX
            ∧ q.y * (st.height / os.h) + st.posY = p.y * (st.height / os.h) + st.posY)) :
    generateGCode1 [⟨[Seg.line [p, q]], st, os⟩] =
      [GCmd.comment, GCmd.g90, GCmd.g21, GCmd.rapidZ st.zUp st.travelSpeed,
       GCmd.rapidXY 0 0 st.travelSpeed, GCmd.comment,
       GCmd.rapidXY (p.x * (st.width / os.w) + st.posX)
         (p.y * (st.height / os.h) + st.posY) st.travelSpeed,
       GCmd.feedZ st.zDown st.workSpeed,
       GCmd.feedXY (q.x * (st.width / os.w) + st.posX)
         (q.y * (st.height / os.h) + st.posY) st.workSpeed,
       GCmd.rapidZ st.zUp st.travelSpeed,
       GCmd.rapidXY 0 0 st.travelSpeed, GCmd.m2]
    ∧ generateGCode2 [⟨[PSeg.gg (GgSeg.line p q)], st, os⟩] =
      [GCmd.comment, GCmd.g90, GCmd.g21, GCmd.g17, GCmd.rapidZ st.zUp st.travelSpeed,
       GCmd.rapidXY (p.x * (st.width / os.w) + st.posX)
         (p.y * (st.height / os.h) + st.posY) st.travelSpeed,
       GCmd.feedZ st.zDown st.workSpeed,
       GCmd.feedXY (q.x * (st.width / os.w) + st.posX)
         (q.y * (st.height / os.h) + st.posY) st.workSpeed,
       GCmd.rapidZ st.zUp st.travelSpeed, GCmd.rapidXY 0 0 st.travelSpeed,
       GCmd.m2] := by
  constructor
  · simp only [generateGCode1, itemCode1, emitSeg1, lineCutMoves, List.isEmpty_cons,
      Bool.false_eq_true, if_false, List.flatMap_cons, List.flatMap_nil,
      List.append_nil]
    rw [if_neg hq]
    simp
  · simp [generateGCode2, flatSegsOfPath, txPt, ggcodeGenerateGCode, ggcodeRun,
      ggcodeStep, ggcodeDisc, ggcodeMoves, GgSeg.p1, GgSeg.p2,
      List.flatMap_cons, List.flatMap_nil, mul_one]

/-- Witness for `bed_mapping_amended`: the line `(0,0)→(1,2)` at 1:1 scale
and position `(0,0)`. -/
theorem bed_mapping_amended_witness :
    generateGCode1 [⟨[Seg.line [(⟨0, 0⟩ : Pt), ⟨1, 2⟩]],
        ⟨100, 100, 0, 0, 5, 0, 1000, 6000⟩, ⟨100, 100⟩⟩] =
      [GCmd.comment, GCmd.g90, GCmd.g21, GCmd.rapidZ 5 6000,
       GCmd.rapidXY 0 0 6000, GCmd.comment,
       GCmd.rapidXY ((0 : ℝ) * (100 / 100) + 0) ((0 : ℝ) * (100 / 100) + 0) 6000,
       GCmd.feedZ 0 1000,
       GCmd.feedXY ((1 : ℝ) * (100 / 100) + 0) ((2 : ℝ) * (100 / 100) + 0) 1000,
       GCmd.rapidZ 5 6000,
       GCmd.rapidXY 0 0 6000, GCmd.m2]
    ∧ generateGCode2 [⟨[PSeg.gg (GgSeg.line ⟨0, 0⟩ ⟨1, 2⟩)],
        ⟨100, 100, 0, 0, 5, 0, 1000, 6000⟩, ⟨100, 100⟩⟩] =
      [GCmd.comment, GCmd.g90, GCmd.g21, GCmd.g17, GCmd.rapidZ 5 6000,
       GCmd.rapidXY ((0 : ℝ) * (100 / 100) + 0) ((0 : ℝ) * (100 / 100) + 0) 6000,
       GCmd.feedZ 0 1000,
       GCmd.feedXY ((1 : ℝ) * (100 / 100) + 0) ((2 : ℝ) * (100 / 100) + 0) 1000,
       GCmd.rapidZ 5 6000, GCmd.rapidXY 0 0 6000, GCmd.m2] :=
  bed_mapping_amended ⟨0, 0⟩ ⟨1, 2⟩ ⟨100, 100, 0, 0, 5, 0, 1000, 6000⟩ ⟨100, 100⟩
    (by norm_num)


/-! ## C1: the arc radius invariant of emitted `Arc` segments -/

/-- The spec's arc invariant (spec-modelled predicate, for comparison with
the code): the distances from start and end to the center agree within a
relative tolerance `tol` of the larger of the two. -/
def arcRadiusInvariant (tol : ℝ) (s e c : Pt) : Prop :=
  |distPt s c - distPt e c| ≤ tol * max (distPt s c) (distPt e c)

/-- Rotation by an angle with cosine `cphi` and sine `sphi` preserves the
squared norm. -/
theorem rot_isom (cphi sphi a b : ℝ) (h : sphi ^ 2 + cphi ^ 2 = 1) :
    (cphi * a - sphi * b) ^ 2 + (sphi * a + cphi * b) ^ 2 = a ^ 2 + b ^ 2 := by
  linear_combination (a ^ 2 + b ^ 2) * h

/-- Core geometry of the SVG endpoint-to-center conversion: with the
center-parameterization equations of `svgArcToCenter` (primed midpoint
frame, center at the rotated `(cxp, cyp)` offset from the chord midpoint),
either the two endpoints coincide with the computed center, or both lie on
the rotated ellipse and hence at distance between `min rx ry` and
`max rx ry` from the center. -/
theorem arc_param_bounds
    (rx ry cphi sphi x1 y1 x2 y2 coef dx dy x1p y1p cxp cyp cx cy : ℝ)
    (hrx : 0 < rx) (hry : 0 < ry)
    (hpyth : sphi ^ 2 + cphi ^ 2 = 1)
    (hdx : dx = (x1 - x2) / 2) (hdy : dy = (y1 - y2) / 2)
    (hx1p : x1p = cphi * dx + sphi * dy)
    (hy1p : y1p = -sphi * dx + cphi * dy)
    (hcoef : coef ^ 2 = (rx ^ 2 * ry ^ 2 - rx ^ 2 * y1p ^ 2 - ry ^ 2 * x1p ^ 2)
        / (rx ^ 2 * y1p ^ 2 + ry ^ 2 * x1p ^ 2))
    (hcxp : cxp = coef * (rx * y1p / ry))
    (hcyp : cyp = coef * (-(ry * x1p) / rx))
    (hcx : cx = cphi * cxp - sphi * cyp + (x1 + x2) / 2)
    (hcy : cy = sphi * cxp + cphi * cyp + (y1 + y2) / 2) :
    (distPt ⟨x1, y1⟩ ⟨cx, cy⟩ = 0 ∧ distPt ⟨x2, y2⟩ ⟨cx, cy⟩ = 0)
    ∨ (min rx ry ≤ distPt ⟨x1, y1⟩ ⟨cx, cy⟩ ∧ distPt ⟨x1, y1⟩ ⟨cx, cy⟩ ≤ max rx ry
       ∧ min rx ry ≤ distPt ⟨x2, y2⟩ ⟨cx, cy⟩ ∧ distPt ⟨x2, y2⟩ ⟨cx, cy⟩ ≤ max rx ry) := by
  have hrx' : rx ≠ 0 := ne_of_gt hrx
  have hry' : ry ≠ 0 := ne_of_gt hry
  have hd1 : distSqPt ⟨x1, y1⟩ ⟨cx, cy⟩ = (x1p - cxp) ^ 2 + (y1p - cyp) ^ 2 := by
    have h1 : x1 - cx = cphi * (x1p - cxp) - sphi * (y1p - cyp) := by
      rw [hcx, hx1p, hy1p, hdx, hdy]
      linear_combination (-(x1 - x2) / 2) * hpyth
    have h2 : y1 - cy = sphi * (x1p - cxp) + cphi * (y1p - cyp) := by
      rw [hcy, hx1p, hy1p, hdx, hdy]
      linear_combination (-(y1 - y2) / 2) * hpyth
    show (x1 - cx) ^ 2 + (y1 - cy) ^ 2 = _
    rw [h1, h2, rot_isom cphi sphi _ _ hpyth]
  have hd2 : distSqPt ⟨x2, y2⟩ ⟨cx, cy⟩ = (-x1p - cxp) ^ 2 + (-y1p - cyp) ^ 2 := by
    have h1 : x2 - cx = cphi * (-x1p - cxp) - sphi * (-y1p - cyp) := by
      rw [hcx, hx1p, hy1p, hdx, hdy]
      linear_combination ((x1 - x2) / 2) * hpyth
    have h2 : y2 - cy = sphi * (-x1p - cxp) + cphi * (-y1p - cyp) := by
      rw [hcy, hx1p, hy1p, hdx, hdy]
      linear_combination ((y1 - y2) / 2) * hpyth
    show (x2 - cx) ^ 2 + (y2 - cy) ^ 2 = _
    rw [h1, h2, rot_isom cphi sphi _ _ hpyth]
  by_cases hden : rx ^ 2 * y1p ^ 2 + ry ^ 2 * x1p ^ 2 = 0
  · left
    have hA : 0 ≤ rx ^ 2 * y1p ^ 2 := by positivity
    have hB : 0 ≤ ry ^ 2 * x1p ^ 2 := by positivity
    have hy0 : y1p = 0 := by
      have h1 : rx ^ 2 * y1p ^ 2 = 0 := by linarith
      rcases mul_eq_zero.mp h1 with h2 | h2
      · exact absurd h2 (pow_ne_zero 2 hrx')
      · exact sq_eq_zero_iff.mp h2
    have hx0 : x1p = 0 := by
      have h1 : ry ^ 2 * x1p ^ 2 = 0 := by linarith
      rcases mul_eq_zero.mp h1 with h2 | h2
      · exact absurd h2 (pow_ne_zero 2 hry')
      · exact sq_eq_zero_iff.mp h2
    have hcxp0 : cxp = 0 := by rw [hcxp, hy0]; ring
    have hcyp0 : cyp = 0 := by rw [hcyp, hx0]; ring
    constructor <;>
      · rw [distPt]
        rw [show distSqPt _ ⟨cx, cy⟩ = 0 by
          first
            | (rw [hd1, hcxp0, hcyp0, hx0, hy0]; ring)
            | (rw [hd2, hcxp0, hcyp0, hx0, hy0]; ring)]
        exact Real.sqrt_zero
  · right
    have hdenpos : 0 < rx ^ 2 * y1p ^ 2 + ry ^ 2 * x1p ^ 2 := by
      rcases lt_or_eq_of_le (by positivity : (0:ℝ) ≤ rx ^ 2 * y1p ^ 2 + ry ^ 2 * x1p ^ 2) with h | h
      · exact h
      · exact absurd h.symm hden
    have hcoef' : coef ^ 2 * (rx ^ 2 * y1p ^ 2 + ry ^ 2 * x1p ^ 2)
        = rx ^ 2 * ry ^ 2 - rx ^ 2 * y1p ^ 2 - ry ^ 2 * x1p ^ 2 := by
      rw [hcoef, div_mul_cancel₀ _ hden]
    have hell1 : ry ^ 2 * (x1p - cxp) ^ 2 + rx ^ 2 * (y1p - cyp) ^ 2
        = rx ^ 2 * ry ^ 2 := by
      rw [hcxp, hcyp]
      field_simp
      linear_combination hcoef'
    have hell2 : ry ^ 2 * (-x1p - cxp) ^ 2 + rx ^ 2 * (-y1p - cyp) ^ 2
        = rx ^ 2 * ry ^ 2 := by
      rw [hcxp, hcyp]
      field_simp
      linear_combination hcoef'
    have key1 : ∀ R S u v : ℝ, 0 < R → 0 < S → R ≤ S →
        S ^ 2 * u ^ 2 + R ^ 2 * v ^ 2 = R ^ 2 * S ^ 2 →
        R ^ 2 ≤ u ^ 2 + v ^ 2 ∧ u ^ 2 + v ^ 2 ≤ S ^ 2 := by
      intro R S u v hR hS hle h
      have hSR : (0 : ℝ) ≤ S ^ 2 - R ^ 2 := by nlinarith
      constructor
      · have hfact : S ^ 2 * (u ^ 2 + v ^ 2) - S ^ 2 * R ^ 2 = (S ^ 2 - R ^ 2) * v ^ 2 := by
          linear_combination h
        have hv : 0 ≤ (S ^ 2 - R ^ 2) * v ^ 2 := mul_nonneg hSR (sq_nonneg v)
        have h1 : S ^ 2 * R ^ 2 ≤ S ^ 2 * (u ^ 2 + v ^ 2) := by linarith
        exact le_of_mul_le_mul_left h1 (by positivity)
      · have hfact : R ^ 2 * S ^ 2 - R ^ 2 * (u ^ 2 + v ^ 2) = (S ^ 2 - R ^ 2) * u ^ 2 := by
          linear_combination -h
        have hu : 0 ≤ (S ^ 2 - R ^ 2) * u ^ 2 := mul_nonneg hSR (sq_nonneg u)
        have h1 : R ^ 2 * (u ^ 2 + v ^ 2) ≤ R ^ 2 * S ^ 2 := by linarith
        exact le_of_mul_le_mul_left h1 (by positivity)
    have key : ∀ u v : ℝ, ry ^ 2 * u ^ 2 + rx ^ 2 * v ^ 2 = rx ^ 2 * ry ^ 2 →
        (min rx ry) ^ 2 ≤ u ^ 2 + v ^ 2 ∧ u ^ 2 + v ^ 2 ≤ (max rx ry) ^ 2 := by
      intro u v h
      rcases le_total rx ry with hle | hle
      · rw [min_eq_left hle, max_eq_right hle]
        exact key1 rx ry u v hrx hry hle h
      · rw [min_eq_right hle, max_eq_left hle]
        have h' : rx ^ 2 * v ^ 2 + ry ^ 2 * u ^ 2 = ry ^ 2 * rx ^ 2 := by linear_combination h
        have hb := key1 ry rx v u hry hrx hle h'
        exact ⟨by linarith [hb.1], by linarith [hb.2]⟩
    have hmin : 0 ≤ min rx ry := le_min hrx.le hry.le
    have hmax : 0 ≤ max rx ry := le_trans hmin (min_le_max)
    have b1 := key _ _ hell1
    have b2 := key _ _ hell2
    rw [← hd1] at b1
    rw [← hd2] at b2
    refine ⟨?_, ?_, ?_, ?_⟩
    · rw [distPt, show min rx ry = Real.sqrt ((min rx ry) ^ 2) from (Real.sqrt_sq hmin).symm]
      exact Real.sqrt_le_sqrt b1.1
    · rw [distPt, show max rx ry = Real.sqrt ((max rx ry) ^ 2) from (Real.sqrt_sq hmax).symm]
      exact Real.sqrt_le_sqrt b1.2
    · rw [distPt, show min rx ry = Real.sqrt ((min rx ry) ^ 2) from (Real.sqrt_sq hmin).symm]
      exact Real.sqrt_le_sqrt b2.1
    · rw [distPt, show max rx ry = Real.sqrt ((max rx ry) ^ 2) from (Real.sqrt_sq hmax).symm]
      exact Real.sqrt_le_sqrt b2.2

/-- Any successful `svgArcToCenter` conversion has positive (corrected)
radii, and each endpoint is either at the center (coincident-endpoint
degenerate case) or at distance between `min rx ry` and `max rx ry` from
it. -/
theorem svgArcToCenter_bounds (x1 y1 x2 y2 rx0 ry0 phiDeg : ℝ) (fA fS : ℤ) (a : ArcC)
    (h : svgArcToCenter x1 y1 x2 y2 rx0 ry0 phiDeg fA fS = some a) :
    0 < a.rx ∧ 0 < a.ry ∧
    ((distPt ⟨x1, y1⟩ ⟨a.cx, a.cy⟩ = 0 ∧ distPt ⟨x2, y2⟩ ⟨a.cx, a.cy⟩ = 0)
     ∨ (min a.rx a.ry ≤ distPt ⟨x1, y1⟩ ⟨a.cx, a.cy⟩
        ∧ distPt ⟨x1, y1⟩ ⟨a.cx, a.cy⟩ ≤ max a.rx a.ry
        ∧ min a.rx a.ry ≤ distPt ⟨x2, y2⟩ ⟨a.cx, a.cy⟩
        ∧ distPt ⟨x2, y2⟩ ⟨a.cx, a.cy⟩ ≤ max a.rx a.ry)) := by
  delta svgArcToCenter at h
  lift_lets at h
  extract_lets rx1 ry1 phi cosPhi sinPhi dx dy x1p y1p lam s rx ry sq coef cxp cyp at h
  by_cases hr : rx1 < 1e-9 ∨ ry1 < 1e-9
  · rw [if_pos hr] at h
    exact absurd h (by simp)
  · rw [if_neg hr] at h
    push_neg at hr
    by_cases hsq : sq < 0
    · rw [if_pos hsq] at h
      exact absurd h (by simp)
    rw [if_neg hsq] at h
    rw [Option.some_inj] at h
    subst h
    have hrx1 : (0 : ℝ) < rx1 := lt_of_lt_of_le (by norm_num) hr.1
    have hry1 : (0 : ℝ) < ry1 := lt_of_lt_of_le (by norm_num) hr.2
    have hs : 0 < s := by
      rw [show s = if 1 < lam then Real.sqrt lam else 1 from rfl]
      split_ifs with hl
      · exact Real.sqrt_pos.mpr (lt_trans one_pos hl)
      · norm_num
    have hrx : 0 < rx := mul_pos hrx1 hs
    have hry : 0 < ry := mul_pos hry1 hs
    have hcoef : coef ^ 2 = sq := by
      rw [show coef = (if fA ≠ fS then (1 : ℝ) else -1) * Real.sqrt (max 0 sq) from rfl,
        mul_pow, Real.sq_sqrt (le_max_left 0 sq), max_eq_right (not_lt.mp hsq)]
      split_ifs <;> ring
    refine ⟨hrx, hry, ?_⟩
    exact arc_param_bounds rx ry cosPhi sinPhi x1 y1 x2 y2 coef dx dy x1p y1p cxp cyp
      _ _ hrx hry (Real.sin_sq_add_cos_sq phi) rfl rfl rfl rfl hcoef rfl rfl rfl rfl

/-- Under the pre-transform circularity guard of the `A` branch
(`|rx - ry| / rMax < 0.01` on the corrected radii), the center produced by
`svgArcToCenter` satisfies the radius invariant at relative tolerance
`1/99` for the untransformed endpoints. -/
theorem svgArcToCenter_invariant (x1 y1 x2 y2 rx0 ry0 phiDeg : ℝ) (fA fS : ℤ) (a : ArcC)
    (h : svgArcToCenter x1 y1 x2 y2 rx0 ry0 phiDeg fA fS = some a)
    (hguard : |a.rx - a.ry| / (if max a.rx a.ry = 0 then 1 else max a.rx a.ry) < 0.01) :
    arcRadiusInvariant (1 / 99) ⟨x1, y1⟩ ⟨x2, y2⟩ ⟨a.cx, a.cy⟩ := by
  obtain ⟨hrx, hry, hcase⟩ := svgArcToCenter_bounds x1 y1 x2 y2 rx0 ry0 phiDeg fA fS a h
  have hM : 0 < max a.rx a.ry := lt_max_of_lt_left hrx
  rw [if_neg (ne_of_gt hM)] at hguard
  have hguard' : |a.rx - a.ry| < 0.01 * max a.rx a.ry := by
    rw [div_lt_iff₀ hM] at hguard
    linarith
  rw [arcRadiusInvariant]
  rcases hcase with ⟨h1, h2⟩ | ⟨hm1, hM1, hm2, hM2⟩
  · rw [h1, h2]
    norm_num
  · have habs : max a.rx a.ry - min a.rx a.ry = |a.rx - a.ry| := by
      rw [abs_sub_comm]
      exact max_sub_min_eq_abs a.rx a.ry
    set d1 := distPt ⟨x1, y1⟩ ⟨a.cx, a.cy⟩
    set d2 := distPt ⟨x2, y2⟩ ⟨a.cx, a.cy⟩
    have hdd : |d1 - d2| ≤ max a.rx a.ry - min a.rx a.ry :=
      abs_sub_le_iff.mpr ⟨by linarith, by linarith⟩
    have hd1max : d1 ≤ max d1 d2 := le_max_left _ _
    have h99 : (0.99 : ℝ) * max a.rx a.ry ≤ max d1 d2 := by linarith
    linarith

/-- The 5%-radius guard of `fitCircleFrom4Points` makes both semicircle
arcs of the 4-cubic circle detection (`A` to `C` and back around the fitted
center) satisfy the radius invariant at relative tolerance `1/20`. -/
theorem fitCircleFrom4Points_invariant (A B C D : Pt) (f : Fit4)
    (h : fitCircleFrom4Points A B C D = some f) :
    arcRadiusInvariant (1 / 20) A C ⟨f.cx, f.cy⟩
    ∧ arcRadiusInvariant (1 / 20) C A ⟨f.cx, f.cy⟩ := by
  delta fitCircleFrom4Points at h
  lift_lets at h
  extract_lets perpABx perpABy perpBCx perpBCy dmx dmy denom t cx cy r rB rC rD angles at h
  by_cases h1 : |denom| < 1e-12
  · rw [if_pos h1] at h
    exact absurd h (by simp)
  rw [if_neg h1] at h
  by_cases h2 : r < 1e-9
  · rw [if_pos h2] at h
    exact absurd h (by simp)
  rw [if_neg h2] at h
  by_cases h3 : 0.05 < |rB - r| / r ∨ 0.05 < |rC - r| / r ∨ 0.05 < |rD - r| / r
  · rw [if_pos h3] at h
    exact absurd h (by simp)
  rw [if_neg h3] at h
  by_cases h4 : angleSpacingOk angles (25 * Real.pi / 180) = true
  · rw [if_pos h4, Option.some_inj] at h
    subst h
    push_neg at h2 h3
    have hr0 : (0 : ℝ) < r := lt_of_lt_of_le (by norm_num) h2
    have hrC : |rC - r| ≤ 0.05 * r := by
      have h5 := h3.2.1
      rw [div_le_iff₀ hr0] at h5
      linarith
    have hdA : distPt A ⟨cx, cy⟩ = r := rfl
    have hdC : distPt C ⟨cx, cy⟩ = rC := rfl
    constructor
    · show |distPt A ⟨cx, cy⟩ - distPt C ⟨cx, cy⟩|
        ≤ 1 / 20 * max (distPt A ⟨cx, cy⟩) (distPt C ⟨cx, cy⟩)
      rw [hdA, hdC, abs_sub_comm]
      have hmax := le_max_left r rC
      linarith
    · show |distPt C ⟨cx, cy⟩ - distPt A ⟨cx, cy⟩|
        ≤ 1 / 20 * max (distPt C ⟨cx, cy⟩) (distPt A ⟨cx, cy⟩)
      rw [hdA, hdC]
      have hmax := le_max_right rC r
      linarith
  · rw [if_neg h4] at h
    exact absurd h (by simp)

/-- Arcs produced by the circle normalizer have exactly equal start and end
distances to the (transformed) center, under every affine CTM: the affine
image of the center is the midpoint of the affine images of the two
diameter endpoints. -/
theorem circleSample_arc_dist (cx cy r a b c d e f : ℝ) (s e2 cen : Pt) (cw : Bool)
    (hmem : Seg.arc s e2 cen cw ∈ circleSample cx cy r (applyMatrix a b c d e f)) :
    distPt s cen = distPt e2 cen := by
  rw [circleSample] at hmem
  by_cases hr : r ≤ 0
  · rw [if_pos hr] at hmem
    simp at hmem
  · rw [if_neg hr] at hmem
    simp only [List.mem_cons, List.mem_singleton, List.not_mem_nil, or_false,
      Seg.arc.injEq] at hmem
    rcases hmem with ⟨hs, he, hc, hw⟩ | ⟨hs, he, hc, hw⟩ <;>
      · subst hs
        subst he
        subst hc
        rw [distPt, distPt]
        apply congrArg
        simp only [distSqPt, applyMatrix]
        ring

/-- `flushCubicBuffer` emits only polyline (`Seg.line`) segments, never an
`Arc`. -/
theorem flushBuf_no_arc (ctm : Pt → Pt) (sv : PathServices) (buf : List Cubic4)
    (s e2 cen : Pt) (cw : Bool) : Seg.arc s e2 cen cw ∉ flushBuf ctm sv buf := by
  intro hmem
  rw [flushBuf, List.mem_flatMap] at hmem
  obtain ⟨cb, hcb, hm⟩ := hmem
  simp only [] at hm
  split_ifs at hm <;> simp at hm

/-- Unfolding of the `A`/`a` arc branch of the path interpreter (here for
the absolute command; the argument accesses and the guard are as in the
source). -/
theorem pathStep_big_A (ctm : Pt → Pt) (sv : PathServices) (st : PState) (args : List ℝ) :
    pathStep ctm sv st ⟨'A', args⟩ =
      ({ st with x := ag args 5, y := ag args 6, lastCp2 := none, lastCp := none, buf := [] },
       flushBuf ctm sv st.buf ++
         match svgArcToCenter st.x st.y (ag args 5) (ag args 6) (ag args 0) (ag args 1)
             (ag args 2) (jsRound (ag args 3)) (jsRound (ag args 4)) with
         | some a =>
             if |a.rx - a.ry| / (if max a.rx a.ry = 0 then 1 else max a.rx a.ry) < 0.01 then
               [Seg.arc (ctm ⟨st.x, st.y⟩) (ctm ⟨ag args 5, ag args 6⟩)
                 (ctm ⟨a.cx, a.cy⟩) a.clockwise]
             else
               let points := sv.sampleArc ⟨st.x, st.y⟩ ⟨ag args 5, ag args 6⟩ (ag args 0)
                 (ag args 1) (ag args 2) (jsRound (ag args 3)) (jsRound (ag args 4))
               if 1 < points.length then [Seg.line points] else []
         | none => []) := rfl

/-- With the identity CTM, every `Arc` emitted by the `A` branch of the
path interpreter satisfies the radius invariant at relative tolerance
`1/99` (the `0.01` circularity guard on the corrected radii). -/
theorem pathStep_A_invariant (sv : PathServices) (st : PState) (args : List ℝ)
    (s e2 cen : Pt) (cw : Bool)
    (hmem : Seg.arc s e2 cen cw ∈ (pathStep (fun p => p) sv st ⟨'A', args⟩).2) :
    arcRadiusInvariant (1 / 99) s e2 cen := by
  rw [pathStep_big_A] at hmem
  rcases List.mem_append.mp hmem with hL | hR
  · exact absurd hL (flushBuf_no_arc _ _ _ _ _ _ _)
  · split at hR
    · rename_i a heq
      by_cases hg : |a.rx - a.ry| / (if max a.rx a.ry = 0 then 1 else max a.rx a.ry) < 0.01
      · rw [if_pos hg] at hR
        simp only [List.mem_singleton, Seg.arc.injEq] at hR
        obtain ⟨hs, he, hc, hw⟩ := hR
        subst hs
        subst he
        subst hc
        exact svgArcToCenter_invariant _ _ _ _ _ _ _ _ _ _ heq hg
      · rw [if_neg hg] at hR
        simp only [] at hR
        split_ifs at hR <;> simp at hR
    · simp at hR

/-- **C1 (counterexample).** The claim fails for non-uniform transforms:
the circularity check of the `A` branch (`|rx - ry| < 1%` on the corrected
radii) runs BEFORE the CTM is applied, while the emitted start/end/center
are transformed.  Under the anisotropic CTM `(x, y) ↦ (2x, y)` the path
`M 0 0 A 1 1 0 0 1 1 1` still emits an `Arc`, whose two center distances
are 1 and 2 — a 100% relative mismatch, far beyond the ~1% tolerance. -/
theorem arc_invariant_counterexample :
    parsePathToSegments (applyMatrix 2 0 0 1 0 0)
        ⟨fun _ _ _ _ _ _ _ => [], fun _ _ _ _ => [], fun _ _ _ => []⟩
        [Tok.cmd 'M', Tok.num 0, Tok.num 0, Tok.cmd 'A', Tok.num 1, Tok.num 1,
         Tok.num 0, Tok.num 0, Tok.num 1, Tok.num 1, Tok.num 1] =
      [Seg.arc ⟨0, 0⟩ ⟨2, 1⟩ ⟨0, 1⟩ false]
    ∧ ¬ arcRadiusInvariant (1 / 100) ⟨0, 0⟩ ⟨2, 1⟩ ⟨0, 1⟩ := by
  have hsvg : svgArcToCenter 0 0 1 1 1 1 0 0 1 = some ⟨0, 1, false, 1, 1⟩ := by
    rw [svgArcToCenter]
    norm_num [Real.sqrt_zero, Real.cos_zero, Real.sin_zero, Real.sqrt_one]
  have htok : tokenizePathD
      [Tok.cmd 'M', Tok.num 0, Tok.num 0, Tok.cmd 'A', Tok.num 1, Tok.num 1,
       Tok.num 0, Tok.num 0, Tok.num 1, Tok.num 1, Tok.num 1] =
      [⟨'M', [0, 0]⟩, ⟨'A', [1, 1, 0, 0, 1, 1, 1]⟩] := by
    rw [tokenizePathD,
      groupTokens_cons_cmd_fit none (by decide)
        (show splitNums (argCount 'M')
            [Tok.num 0, Tok.num 0, Tok.cmd 'A', Tok.num 1, Tok.num 1, Tok.num 0,
             Tok.num 0, Tok.num 1, Tok.num 1, Tok.num 1] =
          some ([0, 0], [Tok.cmd 'A', Tok.num 1, Tok.num 1, Tok.num 0, Tok.num 0,
            Tok.num 1, Tok.num 1, Tok.num 1]) from rfl),
      groupTokens_cons_cmd_fit _ (by decide)
        (show splitNums (argCount 'A')
            [Tok.num 1, Tok.num 1, Tok.num 0, Tok.num 0, Tok.num 1, Tok.num 1,
             Tok.num 1] = some ([1, 1, 0, 0, 1, 1, 1], []) from rfl),
      groupTokens_nil]
  have hM : pathStep (applyMatrix 2 0 0 1 0 0)
      ⟨fun _ _ _ _ _ _ _ => [], fun _ _ _ _ => [], fun _ _ _ => []⟩
      ⟨0, 0, 0, 0, none, none, []⟩ ⟨'M', [0, 0]⟩ =
      (⟨0, 0, 0, 0, none, none, []⟩, []) := rfl
  have hA : pathStep (applyMatrix 2 0 0 1 0 0)
      ⟨fun _ _ _ _ _ _ _ => [], fun _ _ _ _ => [], fun _ _ _ => []⟩
      ⟨0, 0, 0, 0, none, none, []⟩ ⟨'A', [1, 1, 0, 0, 1, 1, 1]⟩ =
      (⟨1, 1, 0, 0, none, none, []⟩, [Seg.arc ⟨0, 0⟩ ⟨2, 1⟩ ⟨0, 1⟩ false]) := by
    simp only [pathStep, isRelChar, ag]
    norm_num [jsRound, flushBuf, hsvg, applyMatrix]
    simp
  refine ⟨?_, ?_⟩
  · rw [parsePathToSegments, htok, runPathCmds, hM, runPathCmds, hA, runPathCmds]
    simp [flushBuf]
  · have h1 : distPt ⟨0, 0⟩ ⟨0, 1⟩ = 1 := by
      rw [distPt, show distSqPt ⟨0, 0⟩ ⟨0, 1⟩ = 1 by norm_num [distSqPt]]
      exact Real.sqrt_one
    have h2 : distPt ⟨2, 1⟩ ⟨0, 1⟩ = 2 := by
      rw [distPt, show distSqPt ⟨2, 1⟩ ⟨0, 1⟩ = 2 ^ 2 by norm_num [distSqPt]]
      exact Real.sqrt_sq (by norm_num)
    rw [arcRadiusInvariant, h1, h2]
    norm_num

/-- **C1 (amended).** The radius invariant as the code actually guarantees
it: (i) circle normalization emits arcs whose start/end center distances
are EXACTLY equal, under every affine CTM (the transformed center is the
midpoint of the transformed diameter endpoints); (ii) with the identity
CTM, every arc emitted by the `A` branch satisfies the invariant within
`1/99` relative tolerance (from the 1% circularity guard on the corrected
radii, which is checked before the transform — see the counterexample for
what happens under a non-uniform CTM); (iii) arcs from the 4-cubic circle
detection satisfy it within `1/20` (the code's 5% radius-fit guard, looser
than the spec's ~1%). -/
theorem arc_invariant_amended :
    (∀ (cx cy r a b c d e f : ℝ) (s e2 cen : Pt) (cw : Bool),
        Seg.arc s e2 cen cw ∈ circleSample cx cy r (applyMatrix a b c d e f) →
        distPt s cen = distPt e2 cen)
    ∧ (∀ (sv : PathServices) (st : PState) (args : List ℝ) (s e2 cen : Pt) (cw : Bool),
        Seg.arc s e2 cen cw ∈ (pathStep (fun p => p) sv st ⟨'A', args⟩).2 →
        arcRadiusInvariant (1 / 99) s e2 cen)
    ∧ (∀ (A B C D : Pt) (f : Fit4),
        fitCircleFrom4Points A B C D = some f →
        arcRadiusInvariant (1 / 20) A C ⟨f.cx, f.cy⟩
        ∧ arcRadiusInvariant (1 / 20) C A ⟨f.cx, f.cy⟩) :=
  ⟨fun cx cy r a b c d e f s e2 cen cw h =>
      circleSample_arc_dist cx cy r a b c d e f s e2 cen cw h,
   fun sv st args s e2 cen cw h => pathStep_A_invariant sv st args s e2 cen cw h,
   fun A B C D f h => fitCircleFrom4Points_invariant A B C D f h⟩

/-- Witness for `arc_invariant_amended`: the first semicircle of the circle
`(cx, cy, r) = (5, 5, 5)` under the identity matrix has equal start/end
distances to the center. -/
theorem arc_invariant_amended_witness :
    distPt ⟨10, 5⟩ ⟨5, 5⟩ = distPt ⟨0, 5⟩ ⟨5, 5⟩ :=
  arc_invariant_amended.1 5 5 5 1 0 0 1 0 0 ⟨10, 5⟩ ⟨0, 5⟩ ⟨5, 5⟩ false
    (by norm_num [circleSample, applyMatrix])

/-! ## C9: adaptive Bézier flattening terminates -/

/-- `pointToLineDist`: distance from `(px, py)` to the segment
`(x0,y0)-(x1,y1)` via the clamped projection (the JS `|| 1e-10` replaces a
zero length). -/
def pointToLineDist (px py x0 y0 x1 y1 : ℝ) : ℝ :=
  let dx := x1 - x0
  let dy := y1 - y0
  let hyp := Real.sqrt (dx ^ 2 + dy ^ 2)
  let len := if hyp = 0 then 1e-10 else hyp
  let t := max 0 (min 1 (((px - x0) * dx + (py - y0) * dy) / (len * len)))
  Real.sqrt ((px - (x0 + t * dx)) ^ 2 + (py - (y0 + t * dy)) ^ 2)

/-- Midpoint of two points (the `(P+Q)/2` combinations of `adaptiveCubic`
and `adaptiveQuad`). -/
def midPt (a b : Pt) : Pt := ⟨(a.x + b.x) / 2, (a.y + b.y) / 2⟩

/-- `adaptiveCubic` with an explicit recursion budget `fuel` — the
modelling device for the unbounded JS recursion: `none` when the budget is
exhausted, otherwise the list of points pushed to `out`.  C9 shows a
sufficient budget always exists. -/
def adaptiveCubicF : ℕ → Pt → Pt → Pt → Pt → ℝ → Option (List Pt)
  | 0, _, _, _, _, _ => none
  | fuel + 1, P0, P1, P2, P3, tol =>
      if pointToLineDist P1.x P1.y P0.x P0.y P3.x P3.y ≤ tol ∧
         pointToLineDist P2.x P2.y P0.x P0.y P3.x P3.y ≤ tol then
        some [P3]
      else
        let L1 := midPt P0 P1
        let H := midPt P1 P2
        let R2 := midPt P2 P3
        let L2 := midPt L1 H
        let R1 := midPt H R2
        let M := midPt L2 R1
        match adaptiveCubicF fuel P0 L1 L2 M tol, adaptiveCubicF fuel M R1 R2 P3 tol with
        | some l, some r => some (l ++ r)
        | _, _ => none

/-- `adaptiveQuad` with fuel.  (The source computes `M = quadAt(0.5, …)` but
recurses on `L2 = midpoint(L1, R1)`; the two coincide.) -/
def adaptiveQuadF : ℕ → Pt → Pt → Pt → ℝ → Option (List Pt)
  | 0, _, _, _, _ => none
  | fuel + 1, P0, P1, P2, tol =>
      if pointToLineDist P1.x P1.y P0.x P0.y P2.x P2.y ≤ tol then some [P2]
      else
        let L1 := midPt P0 P1
        let R1 := midPt P1 P2
        let L2 := midPt L1 R1
        match adaptiveQuadF fuel P0 L1 L2 tol, adaptiveQuadF fuel L2 R1 P2 tol with
        | some l, some r => some (l ++ r)
        | _, _ => none

theorem clamp_quadratic_le (A B C : ℝ) (hA : 0 ≤ A) (hC : 0 < C) :
    A - 2 * max 0 (min 1 (B / C)) * B + (max 0 (min 1 (B / C))) ^ 2 * C ≤ A ∧
    A - 2 * max 0 (min 1 (B / C)) * B + (max 0 (min 1 (B / C))) ^ 2 * C
      ≤ A - 2 * B + C := by
  have hCne : C ≠ 0 := ne_of_gt hC
  rcases le_or_lt (B / C) 0 with hbc | hbc
  · have ht : max 0 (min 1 (B / C)) = 0 := by
      rw [min_eq_right (le_trans hbc zero_le_one), max_eq_left hbc]
    have hB : B ≤ 0 := by
      by_contra hB
      push_neg at hB
      exact absurd (div_pos hB hC) (not_lt.mpr hbc)
    rw [ht]
    constructor <;> nlinarith
  · rcases le_or_lt 1 (B / C) with hbc1 | hbc1
    · have ht : max 0 (min 1 (B / C)) = 1 := by
        rw [min_eq_left hbc1, max_eq_right zero_le_one]
      have hB : C ≤ B := by
        have := (le_div_iff hC).mp hbc1
        linarith
      rw [ht]
      constructor <;> nlinarith
    · have ht : max 0 (min 1 (B / C)) = B / C := by
        rw [min_eq_right hbc1.le, max_eq_right hbc.le]
      rw [ht]
      have hmain : A - 2 * (B / C) * B + (B / C) ^ 2 * C = A - B ^ 2 / C := by
        field_simp
        ring
      rw [hmain]
      have hBBC : 0 ≤ B ^ 2 / C := div_nonneg (sq_nonneg B) hC.le
      constructor
      · linarith
      · have h2 : 2 * B - C ≤ B ^ 2 / C := by
          rw [le_div_iff hC]
          nlinarith [sq_nonneg (B - C)]
        linarith

theorem pointToLineDist_le_ends (px py x0 y0 x1 y1 : ℝ) :
    pointToLineDist px py x0 y0 x1 y1 ≤ Real.sqrt ((px - x0) ^ 2 + (py - y0) ^ 2)
    ∧ pointToLineDist px py x0 y0 x1 y1 ≤ Real.sqrt ((px - x1) ^ 2 + (py - y1) ^ 2) := by
  simp only [pointToLineDist]
  by_cases h0 : Real.sqrt ((x1 - x0) ^ 2 + (y1 - y0) ^ 2) = 0
  · have hC0 : (x1 - x0) ^ 2 + (y1 - y0) ^ 2 = 0 := by
      have := Real.sqrt_eq_zero'.mp h0
      nlinarith [sq_nonneg (x1 - x0), sq_nonneg (y1 - y0)]
    have hx : x1 = x0 := by nlinarith [sq_nonneg (x1 - x0), sq_nonneg (y1 - y0)]
    have hy : y1 = y0 := by nlinarith [sq_nonneg (x1 - x0), sq_nonneg (y1 - y0)]
    subst hx; subst hy
    constructor <;> · rw [if_pos h0]; apply Real.sqrt_le_sqrt; nlinarith
  · rw [if_neg h0]
    set C := (x1 - x0) ^ 2 + (y1 - y0) ^ 2 with hCdef
    have hCnn : 0 ≤ C := by positivity
    have hClen : Real.sqrt C * Real.sqrt C = C := Real.mul_self_sqrt hCnn
    have hCpos : 0 < C := by
      rcases lt_or_eq_of_le hCnn with h | h
      · exact h
      · exact absurd (by rw [← h, Real.sqrt_zero] : Real.sqrt C = 0) h0
    set B := (px - x0) * (x1 - x0) + (py - y0) * (y1 - y0) with hBdef
    set A := (px - x0) ^ 2 + (py - y0) ^ 2 with hAdef
    have hAnn : 0 ≤ A := by positivity
    rw [hClen]
    set t := max 0 (min 1 (B / C)) with htdef
    have hval : (px - (x0 + t * (x1 - x0))) ^ 2 + (py - (y0 + t * (y1 - y0))) ^ 2
        = A - 2 * t * B + t ^ 2 * C := by
      rw [hAdef, hBdef, hCdef]; ring
    have hclamp := clamp_quadratic_le A B C hAnn hCpos
    rw [← htdef] at hclamp
    constructor
    · rw [hval]
      exact Real.sqrt_le_sqrt hclamp.1
    · rw [hval]
      apply Real.sqrt_le_sqrt
      have hend : (px - x1) ^ 2 + (py - y1) ^ 2 = A - 2 * B + C := by
        rw [hAdef, hBdef, hCdef]; ring
      rw [hend]
      exact hclamp.2


theorem distSqPt_comm (p q : Pt) : distSqPt p q = distSqPt q p := by
  simp only [distSqPt]; ring

theorem flatTest_of_close {P0 P1 P2 P3 : Pt} {tol : ℝ} (htol : 0 ≤ tol)
    (h1 : distSqPt P0 P1 ≤ tol ^ 2) (h2 : distSqPt P2 P3 ≤ tol ^ 2) :
    pointToLineDist P1.x P1.y P0.x P0.y P3.x P3.y ≤ tol ∧
    pointToLineDist P2.x P2.y P0.x P0.y P3.x P3.y ≤ tol := by
  constructor
  · calc pointToLineDist P1.x P1.y P0.x P0.y P3.x P3.y
        ≤ Real.sqrt ((P1.x - P0.x) ^ 2 + (P1.y - P0.y) ^ 2) :=
          (pointToLineDist_le_ends P1.x P1.y P0.x P0.y P3.x P3.y).1
      _ ≤ Real.sqrt (tol ^ 2) := by
          apply Real.sqrt_le_sqrt
          rw [distSqPt_comm] at h1
          simpa [distSqPt] using h1
      _ = tol := Real.sqrt_sq htol
  · calc pointToLineDist P2.x P2.y P0.x P0.y P3.x P3.y
        ≤ Real.sqrt ((P2.x - P3.x) ^ 2 + (P2.y - P3.y) ^ 2) :=
          (pointToLineDist_le_ends P2.x P2.y P0.x P0.y P3.x P3.y).2
      _ ≤ Real.sqrt (tol ^ 2) := by
          apply Real.sqrt_le_sqrt
          simpa [distSqPt] using h2
      _ = tol := Real.sqrt_sq htol

theorem quadFlatTest_of_close {P0 P1 P2 : Pt} {tol : ℝ} (htol : 0 ≤ tol)
    (h1 : distSqPt P0 P1 ≤ tol ^ 2) :
    pointToLineDist P1.x P1.y P0.x P0.y P2.x P2.y ≤ tol :=
  calc pointToLineDist P1.x P1.y P0.x P0.y P2.x P2.y
      ≤ Real.sqrt ((P1.x - P0.x) ^ 2 + (P1.y - P0.y) ^ 2) :=
        (pointToLineDist_le_ends P1.x P1.y P0.x P0.y P2.x P2.y).1
    _ ≤ Real.sqrt (tol ^ 2) := by
        apply Real.sqrt_le_sqrt
        rw [distSqPt_comm] at h1
        simpa [distSqPt] using h1
    _ = tol := Real.sqrt_sq htol

theorem distSq_left_mid (a b : Pt) : distSqPt a (midPt a b) = distSqPt a b / 4 := by
  simp only [distSqPt, midPt]; ring

theorem distSq_mid_right (a b : Pt) : distSqPt (midPt a b) b = distSqPt a b / 4 := by
  simp only [distSqPt, midPt]; ring

theorem distSq_mid_shared (a b c : Pt) :
    distSqPt (midPt a b) (midPt b c) = distSqPt a c / 4 := by
  simp only [distSqPt, midPt]; ring

theorem distSq_mid_mid (a b c d : Pt) :
    distSqPt (midPt a b) (midPt c d) ≤ (distSqPt a c + distSqPt b d) / 2 := by
  simp only [distSqPt, midPt]
  nlinarith [sq_nonneg ((a.x - c.x) - (b.x - d.x)), sq_nonneg ((a.y - c.y) - (b.y - d.y))]

theorem distSqPt_nonneg (p q : Pt) : 0 ≤ distSqPt p q := by
  simp only [distSqPt]
  positivity

theorem distSq_triangle (a b c : Pt) :
    distSqPt a c ≤ 2 * (distSqPt a b + distSqPt b c) := by
  simp only [distSqPt]
  nlinarith [sq_nonneg ((a.x - b.x) - (b.x - c.x)), sq_nonneg ((a.y - b.y) - (b.y - c.y))]

/-- The edge measure of a cubic control polygon: the largest squared edge
length. -/
def maxEdgeSqC (P0 P1 P2 P3 : Pt) : ℝ :=
  max (distSqPt P0 P1) (max (distSqPt P1 P2) (distSqPt P2 P3))

/-- The edge measure of a quadratic control polygon. -/
def maxEdgeSqQ (P0 P1 P2 : Pt) : ℝ :=
  max (distSqPt P0 P1) (distSqPt P1 P2)

theorem cubic_children_measure (P0 P1 P2 P3 : Pt) :
    maxEdgeSqC P0 (midPt P0 P1) (midPt (midPt P0 P1) (midPt P1 P2))
        (midPt (midPt (midPt P0 P1) (midPt P1 P2)) (midPt (midPt P1 P2) (midPt P2 P3)))
      ≤ maxEdgeSqC P0 P1 P2 P3 / 2
    ∧ maxEdgeSqC
        (midPt (midPt (midPt P0 P1) (midPt P1 P2)) (midPt (midPt P1 P2) (midPt P2 P3)))
        (midPt (midPt P1 P2) (midPt P2 P3)) (midPt P2 P3) P3
      ≤ maxEdgeSqC P0 P1 P2 P3 / 2 := by
  set E := maxEdgeSqC P0 P1 P2 P3 with hE
  have h01 : distSqPt P0 P1 ≤ E := le_max_left _ _
  have hEnn : 0 ≤ E := le_trans (distSqPt_nonneg _ _) h01
  have h12 : distSqPt P1 P2 ≤ E := le_trans (le_max_left _ _) (le_max_right _ _)
  have h23 : distSqPt P2 P3 ≤ E := le_trans (le_max_right _ _) (le_max_right _ _)
  have h02 : distSqPt P0 P2 ≤ 4 * E := by
    have := distSq_triangle P0 P1 P2
    linarith
  have h13 : distSqPt P1 P3 ≤ 4 * E := by
    have := distSq_triangle P1 P2 P3
    linarith
  have hL1R2 : distSqPt (midPt P0 P1) (midPt P2 P3) ≤ 4 * E := by
    have := distSq_mid_mid P0 P1 P2 P3
    linarith
  have hL2R1 : distSqPt (midPt (midPt P0 P1) (midPt P1 P2))
      (midPt (midPt P1 P2) (midPt P2 P3)) = distSqPt (midPt P0 P1) (midPt P2 P3) / 4 :=
    distSq_mid_shared _ _ _
  constructor
  · apply max_le
    · rw [distSq_left_mid]
      linarith
    apply max_le
    · rw [distSq_left_mid, distSq_mid_shared]
      linarith
    · rw [distSq_left_mid, hL2R1]
      linarith
  · apply max_le
    · rw [distSq_mid_right, hL2R1]
      linarith
    apply max_le
    · rw [distSq_mid_right, distSq_mid_shared]
      linarith
    · rw [distSq_mid_right]
      linarith

theorem quad_children_measure (P0 P1 P2 : Pt) :
    maxEdgeSqQ P0 (midPt P0 P1) (midPt (midPt P0 P1) (midPt P1 P2))
      ≤ maxEdgeSqQ P0 P1 P2 / 2
    ∧ maxEdgeSqQ (midPt (midPt P0 P1) (midPt P1 P2)) (midPt P1 P2) P2
      ≤ maxEdgeSqQ P0 P1 P2 / 2 := by
  set E := maxEdgeSqQ P0 P1 P2 with hE
  have h01 : distSqPt P0 P1 ≤ E := le_max_left _ _
  have hEnn : 0 ≤ E := le_trans (distSqPt_nonneg _ _) h01
  have h12 : distSqPt P1 P2 ≤ E := le_max_right _ _
  have hL1R1 : distSqPt (midPt P0 P1) (midPt P1 P2) = distSqPt P0 P2 / 4 :=
    distSq_mid_shared _ _ _
  have h02 : distSqPt P0 P2 ≤ 4 * E := by
    have := distSq_triangle P0 P1 P2
    linarith
  constructor
  · apply max_le
    · rw [distSq_left_mid]
      linarith
    · rw [distSq_left_mid, hL1R1]
      linarith
  · apply max_le
    · rw [distSq_mid_right, hL1R1]
      linarith
    · rw [distSq_mid_right]
      linarith


theorem adaptiveCubicF_total (tol : ℝ) (htol : 0 < tol) :
    ∀ (n : ℕ) (P0 P1 P2 P3 : Pt),
      maxEdgeSqC P0 P1 P2 P3 ≤ 2 ^ n * tol ^ 2 →
      ∃ out, adaptiveCubicF (n + 1) P0 P1 P2 P3 tol = some out := by
  intro n
  induction n with
  | zero =>
      intro P0 P1 P2 P3 hE
      rw [pow_zero, one_mul] at hE
      have h1 : distSqPt P0 P1 ≤ tol ^ 2 := le_trans (le_max_left _ _) hE
      have h2 : distSqPt P2 P3 ≤ tol ^ 2 :=
        le_trans (le_trans (le_max_right _ _) (le_max_right _ _)) hE
      exact ⟨[P3], by rw [adaptiveCubicF, if_pos (flatTest_of_close htol.le h1 h2)]⟩
  | succ n ih =>
      intro P0 P1 P2 P3 hE
      by_cases hflat : pointToLineDist P1.x P1.y P0.x P0.y P3.x P3.y ≤ tol ∧
          pointToLineDist P2.x P2.y P0.x P0.y P3.x P3.y ≤ tol
      · exact ⟨[P3], by rw [adaptiveCubicF, if_pos hflat]⟩
      · have hc := cubic_children_measure P0 P1 P2 P3
        have hhalf : maxEdgeSqC P0 P1 P2 P3 / 2 ≤ 2 ^ n * tol ^ 2 := by
          rw [pow_succ] at hE
          linarith
        obtain ⟨l, hl⟩ := ih _ _ _ _ (le_trans hc.1 hhalf)
        obtain ⟨r, hr⟩ := ih _ _ _ _ (le_trans hc.2 hhalf)
        refine ⟨l ++ r, ?_⟩
        rw [adaptiveCubicF, if_neg hflat]
        simp only []
        rw [hl, hr]

theorem adaptiveQuadF_total (tol : ℝ) (htol : 0 < tol) :
    ∀ (n : ℕ) (P0 P1 P2 : Pt),
      maxEdgeSqQ P0 P1 P2 ≤ 2 ^ n * tol ^ 2 →
      ∃ out, adaptiveQuadF (n + 1) P0 P1 P2 tol = some out := by
  intro n
  induction n with
  | zero =>
      intro P0 P1 P2 hE
      rw [pow_zero, one_mul] at hE
      have h1 : distSqPt P0 P1 ≤ tol ^ 2 := le_trans (le_max_left _ _) hE
      exact ⟨[P2], by rw [adaptiveQuadF, if_pos (quadFlatTest_of_close htol.le h1)]⟩
  | succ n ih =>
      intro P0 P1 P2 hE
      by_cases hflat : pointToLineDist P1.x P1.y P0.x P0.y P2.x P2.y ≤ tol
      · exact ⟨[P2], by rw [adaptiveQuadF, if_pos hflat]⟩
      · have hc := quad_children_measure P0 P1 P2
        have hhalf : maxEdgeSqQ P0 P1 P2 / 2 ≤ 2 ^ n * tol ^ 2 := by
          rw [pow_succ] at hE
          linarith
        obtain ⟨l, hl⟩ := ih _ _ _ (le_trans hc.1 hhalf)
        obtain ⟨r, hr⟩ := ih _ _ _ (le_trans hc.2 hhalf)
        refine ⟨l ++ r, ?_⟩
        rw [adaptiveQuadF, if_neg hflat]
        simp only []
        rw [hl, hr]

/-- **C9.** For every cubic (and quadratic) Bézier with finite control
points and every flatness tolerance > 0, the adaptive de-Casteljau
subdivision of `adaptiveCubic`/`adaptiveQuad` terminates: some finite
recursion budget suffices, and the result is a (finite) list of points.
(The fuel argument of `adaptiveCubicF`/`adaptiveQuadF` models the JS
recursion depth; the geometric reason is that the largest squared edge of
the control polygon at least halves at each subdivision, and once it is
below `tol²` the perpendicular-distance test passes.) -/
theorem adaptive_flattening_terminates (P0 P1 P2 P3 Q0 Q1 Q2 : Pt) {tol : ℝ}
    (htol : 0 < tol) :
    (∃ n out, adaptiveCubicF n P0 P1 P2 P3 tol = some out)
    ∧ (∃ n out, adaptiveQuadF n Q0 Q1 Q2 tol = some out) := by
  have htol2 : 0 < tol ^ 2 := by positivity
  constructor
  · obtain ⟨n, hn⟩ := pow_unbounded_of_one_lt (maxEdgeSqC P0 P1 P2 P3 / tol ^ 2)
      (by norm_num : (1 : ℝ) < 2)
    have hE : maxEdgeSqC P0 P1 P2 P3 ≤ 2 ^ n * tol ^ 2 := by
      rw [div_lt_iff htol2] at hn
      linarith
    obtain ⟨out, hout⟩ := adaptiveCubicF_total tol htol n P0 P1 P2 P3 hE
    exact ⟨n + 1, out, hout⟩
  · obtain ⟨n, hn⟩ := pow_unbounded_of_one_lt (maxEdgeSqQ Q0 Q1 Q2 / tol ^ 2)
      (by norm_num : (1 : ℝ) < 2)
    have hE : maxEdgeSqQ Q0 Q1 Q2 ≤ 2 ^ n * tol ^ 2 := by
      rw [div_lt_iff htol2] at hn
      linarith
    obtain ⟨out, hout⟩ := adaptiveQuadF_total tol htol n Q0 Q1 Q2 hE
    exact ⟨n + 1, out, hout⟩

/-- Witness for `adaptive_flattening_terminates`: a concrete cubic and
quadratic at the default 0.05 tolerance. -/
theorem adaptive_flattening_terminates_witness :
    (∃ n out, adaptiveCubicF n ⟨0, 0⟩ ⟨0, 1⟩ ⟨1, 1⟩ ⟨1, 0⟩ (1 / 20) = some out)
    ∧ (∃ n out, adaptiveQuadF n ⟨0, 0⟩ ⟨1, 2⟩ ⟨2, 0⟩ (1 / 20) = some out) :=
  adaptive_flattening_terminates ⟨0, 0⟩ ⟨0, 1⟩ ⟨1, 1⟩ ⟨1, 0⟩ ⟨0, 0⟩ ⟨1, 2⟩ ⟨2, 0⟩
    (by norm_num)

end
